import Mathlib

/-!
Verification of the XenStandard reference-counted ownership subsystem.

Shallow embedding of:
- src/err/err.hpp          (the error taxonomy)
- src/core/safe_u64.hpp    (the checked unsigned 64-bit counter)
- src/mem/shared_ref.hpp   (shared-ownership container)
- src/mem/observed_ref.hpp (observed-ownership container and ref_counter_t)
- src/mem/unique_ref.hpp   (exclusive-ownership container)

Machine u64 values are modelled as Nat together with explicit bounds
(v less-or-equal U64_MAX); wrapping operations carry an explicit mod 2^64.
Heap state is modelled explicitly: address-indexed allocation tables plus
free logs, so that freed-exactly-once properties are observable.
-/

set_option maxHeartbeats 1000000

namespace xen

/-- Embedding of the error enumeration from src/err/err.hpp. -/
inductive err where
  | Logic
  | IndexOutOfRange
  | InvalidArgument
  | NumOverflow
  | NumUnderflow
  | DivideByZero
deriving DecidableEq

/-- U64_MAX from src/core/numdef.hpp. -/
def U64_MAX : Nat := 18446744073709551615

/-- U64_MIN from src/core/numdef.hpp. -/
def U64_MIN : Nat := 0

/-- Result of a safe_u64 operation: the stored magnitude after the call
paired with the returned value (ok) or the thrown error.  A C++ operator
that throws leaves the object in its pre-call state, which the embedding
records in the first component. -/
abbrev U64Res := Nat × Except err Nat

namespace safe_u64

/-- Embedding of safe_u64::_is_safe_add_u64: the guard as written in the
source, a less-or-equal U64_MAX minus b.  For b at most U64_MAX the C++
unsigned subtraction U64_MAX - b is exact, so Nat subtraction is faithful. -/
def is_safe_add_u64 (a b : Nat) : Bool := a ≤ U64_MAX - b

/-- Embedding of safe_u64::_is_safe_sub_u64. -/
def is_safe_sub_u64 (a b : Nat) : Bool := a ≥ b

/-- Embedding of safe_u64::_is_safe_mul_u64. -/
def is_safe_mul_u64 (a b : Nat) : Bool :=
  if b = 0 then true else a ≤ U64_MAX / b

/-- Embedding of safe_u64::_is_safe_div_u64. -/
def is_safe_div_u64 (_a b : Nat) : Bool := b ≠ 0

/-- Embedding of the prefix operator++ from src/core/safe_u64.hpp: throws
NumOverflow at U64_MAX, else increments in machine arithmetic and returns
the new value. -/
def preIncrement (s : Nat) : U64Res :=
  if s = U64_MAX then (s, .error .NumOverflow)
  else ((s + 1) % 2 ^ 64, .ok ((s + 1) % 2 ^ 64))

/-- Embedding of the postfix operator++: copies the old value, delegates to
prefix increment (an error propagates), returns the old value. -/
def postIncrement (s : Nat) : U64Res :=
  match preIncrement s with
  | (s2, .ok _) => (s2, .ok s)
  | (s2, .error e) => (s2, .error e)

/-- Embedding of the prefix operator--: throws NumUnderflow at U64_MIN,
else decrements and returns the new value. -/
def preDecrement (s : Nat) : U64Res :=
  if s = U64_MIN then (s, .error .NumUnderflow)
  else (s - 1, .ok (s - 1))

/-- Embedding of the postfix operator--. -/
def postDecrement (s : Nat) : U64Res :=
  match preDecrement s with
  | (s2, .ok _) => (s2, .ok s)
  | (s2, .error e) => (s2, .error e)

/-- Embedding of operator+=(safe_u64, u64_t): guard with _is_safe_add_u64
before the wrapping machine addition ever happens. -/
def addAssign_u64 (lhs rhs : Nat) : U64Res :=
  if ¬ is_safe_add_u64 lhs rhs then (lhs, .error .NumOverflow)
  else ((lhs + rhs) % 2 ^ 64, .ok ((lhs + rhs) % 2 ^ 64))

/-- Value result of a compound-assignment run on a copy, as the binary
operator+ overloads do: on success the result is the mutated copy. -/
def valueOf (r : U64Res) : Except err Nat :=
  match r with
  | (s, .ok _) => .ok s
  | (_, .error e) => .error e

/-- Embedding of operator+(safe_u64, u64_t) and, identically,
operator+(safe_u64, safe_u64) which forwards to lhs += rhs._size. -/
def add_u64 (lhs rhs : Nat) : Except err Nat := valueOf (addAssign_u64 lhs rhs)

/-- Embedding of operator+=(safe_u64, i32_t): a negative rhs is treated as
subtraction of its absolute magnitude, a non-negative rhs as addition. -/
def addAssign_i32 (lhs : Nat) (rhs : Int) : U64Res :=
  if rhs < 0 then
    let sub : Nat := (-rhs).toNat
    if ¬ is_safe_sub_u64 lhs sub then (lhs, .error .NumUnderflow)
    else (lhs - sub, .ok (lhs - sub))
  else
    let add : Nat := rhs.toNat
    if ¬ is_safe_add_u64 lhs add then (lhs, .error .NumOverflow)
    else ((lhs + add) % 2 ^ 64, .ok ((lhs + add) % 2 ^ 64))

/-- Embedding of operator-=(safe_u64, u64_t). -/
def subAssign_u64 (lhs rhs : Nat) : U64Res :=
  if ¬ is_safe_sub_u64 lhs rhs then (lhs, .error .NumUnderflow)
  else (lhs - rhs, .ok (lhs - rhs))

/-- Embedding of operator-=(safe_u64, i32_t): a negative rhs is treated as
addition of its absolute magnitude. -/
def subAssign_i32 (lhs : Nat) (rhs : Int) : U64Res :=
  if rhs < 0 then
    let add : Nat := (-rhs).toNat
    if ¬ is_safe_add_u64 lhs add then (lhs, .error .NumOverflow)
    else ((lhs + add) % 2 ^ 64, .ok ((lhs + add) % 2 ^ 64))
  else
    let sub : Nat := rhs.toNat
    if ¬ is_safe_sub_u64 lhs sub then (lhs, .error .NumUnderflow)
    else (lhs - sub, .ok (lhs - sub))

/-- Embedding of operator*=(safe_u64, u64_t). -/
def mulAssign_u64 (lhs rhs : Nat) : U64Res :=
  if ¬ is_safe_mul_u64 lhs rhs then (lhs, .error .NumOverflow)
  else ((lhs * rhs) % 2 ^ 64, .ok ((lhs * rhs) % 2 ^ 64))

/-- Embedding of operator*=(safe_u64, i32_t): a negative multiplier throws
NumOverflow, otherwise delegates to the u64_t overload. -/
def mulAssign_i32 (lhs : Nat) (rhs : Int) : U64Res :=
  if rhs < 0 then (lhs, .error .NumOverflow)
  else mulAssign_u64 lhs rhs.toNat

/-- Embedding of operator*(i32_t, safe_u64): a negative left operand throws
NumOverflow, otherwise delegates to the u64_t multiplication. -/
def mul_i32_left (lhs : Int) (rhs : Nat) : Except err Nat :=
  if lhs < 0 then .error .NumOverflow
  else valueOf (mulAssign_u64 rhs lhs.toNat)

/-- Embedding of operator/=(safe_u64, u64_t): a zero divisor throws
DivideByZero, otherwise the quotient is stored. -/
def divAssign_u64 (lhs rhs : Nat) : U64Res :=
  if rhs = 0 then (lhs, .error .DivideByZero)
  else (lhs / rhs, .ok (lhs / rhs))

/-- Embedding of operator/(safe_u64, u64_t). -/
def div_u64 (lhs rhs : Nat) : Except err Nat := valueOf (divAssign_u64 lhs rhs)

/-- The C++ standard integral conversion from a (negative) i32_t value to
u64_t: reduction modulo 2 to the 64.  src/core/safe_u64.hpp declares no
i32_t division overload, so a signed divisor reaches the u64_t overloads
only through this conversion. -/
def u64_of_i32 (n : Int) : Nat := (n % (2 : Int) ^ 64).toNat

/-- Dividing a safe_u64 by an i32_t value in C++: overload resolution
selects operator/(safe_u64, u64_t) after the standard integral conversion
of the divisor, since no signed overload exists in src/core/safe_u64.hpp. -/
def div_i32_converted (lhs : Nat) (n : Int) : U64Res :=
  divAssign_u64 lhs (u64_of_i32 n)

end safe_u64

/-- A shared_ref handle: the two data members of src/mem/shared_ref.hpp.
Addresses are natural numbers; none models nullptr. -/
structure SRef where
  ptr : Option Nat
  cnt : Option Nat
deriving DecidableEq

/-- Explicit heap state for shared_ref families: an address-indexed table of
pointee allocations (true means live), an address-indexed table of counter
cells (some v means a live cell holding v), and logs of every delete
executed on a non-null pointer, so that double frees and leaks are
observable.  Fresh allocations append, so addresses are never reused.
The counter type u_size is referenced but not defined under src/; per the
spec the shared counter is a plain unsigned counter, modelled here as an
exact Nat cell (its increments and decrements never overflow at any
reachable count). -/
structure SWorld where
  pointees : List Bool
  ptrFreeLog : List Nat
  counters : List (Option Nat)
  cntFreeLog : List Nat
deriving DecidableEq

/-- The counter cell at address c, or none if freed or never allocated. -/
def SWorld.cellAt (w : SWorld) (c : Nat) : Option Nat := w.counters.getD c none

/-- Allocate a fresh pointee (models new T_). -/
def SWorld.allocPointee (w : SWorld) : Nat × SWorld :=
  (w.pointees.length, { w with pointees := w.pointees ++ [true] })

/-- Allocate a fresh counter cell holding v (models new u_size brace v). -/
def SWorld.allocCounter (w : SWorld) (v : Nat) : Nat × SWorld :=
  (w.counters.length, { w with counters := w.counters ++ [some v] })

/-- Embedding of delete on a T_ pointer: deleting nullptr is a no-op;
deleting an address marks the pointee dead and logs the free. -/
def SWorld.deletePointee (w : SWorld) (p : Option Nat) : SWorld :=
  match p with
  | none => w
  | some a => { w with pointees := w.pointees.set a false, ptrFreeLog := a :: w.ptrFreeLog }

/-- Embedding of delete on the shared counter pointer. -/
def SWorld.deleteCounter (w : SWorld) (c : Nat) : SWorld :=
  { w with counters := w.counters.set c none, cntFreeLog := c :: w.cntFreeLog }

/-- Overwrite the counter cell at c with v. -/
def SWorld.writeCounter (w : SWorld) (c : Nat) (v : Nat) : SWorld :=
  { w with counters := w.counters.set c (some v) }

namespace shared_ref

/-- Embedding of shared_ref::_add_owner: increments the shared counter when
the counter pointer is non-null.  Incrementing a freed cell is undefined
behaviour in C++ and never happens from a well-formed state; the embedding
leaves the world unchanged in that unreachable case. -/
def add_owner (h : SRef) (w : SWorld) : SWorld :=
  match h.cnt with
  | none => w
  | some c =>
    match w.cellAt c with
    | none => w
    | some v => w.writeCounter c (v + 1)

/-- Embedding of shared_ref::_remove_owner: early return on a null counter
pointer (members untouched); otherwise decrement the shared counter, and if
it reached zero delete the pointee (delete _ptr, a no-op when _ptr is
null) and then the counter cell; finally null both members. -/
def remove_owner (h : SRef) (w : SWorld) : SRef × SWorld :=
  match h.cnt with
  | none => (h, w)
  | some c =>
    let v := (w.cellAt c).getD 0
    if v - 1 = 0 then
      ((⟨none, none⟩ : SRef),
        ((w.writeCounter c (v - 1)).deletePointee h.ptr).deleteCounter c)
    else
      ((⟨none, none⟩ : SRef), w.writeCounter c (v - 1))

/-- Embedding of the shared_ref pointer constructor: a non-null pointer gets
a fresh counter cell at 1; nullptr yields an empty handle, no allocation. -/
def ctorFromPtr (p : Option Nat) (w : SWorld) : SRef × SWorld :=
  match p with
  | none => ((⟨none, none⟩ : SRef), w)
  | some a =>
    let (c, w1) := w.allocCounter 1
    ((⟨some a, some c⟩ : SRef), w1)

/-- Embedding of the shared_ref destructor: it first sets _ptr to nullptr
and only then calls _remove_owner, exactly as written in the source. -/
def dtor (h : SRef) (w : SWorld) : SWorld :=
  (remove_owner (⟨none, h.cnt⟩ : SRef) w).2

/-- Embedding of the shared_ref copy constructor: alias both members, then
call _add_owner when the source pointer is non-null. -/
def copyCtor (other : SRef) (w : SWorld) : SRef × SWorld :=
  let h : SRef := ⟨other.ptr, other.cnt⟩
  if other.ptr = none then (h, w) else (h, add_owner h w)

/-- Embedding of shared_ref copy assignment for distinct objects: release
the current ownership, alias the source, then _add_owner. -/
def copyAssign (self other : SRef) (w : SWorld) : SRef × SWorld :=
  let r := remove_owner self w
  let h : SRef := ⟨other.ptr, other.cnt⟩
  (h, add_owner h r.2)

/-- Embedding of the shared_ref move constructor: steal both members, null
the source, no heap effect.  Result is (new handle, emptied source). -/
def moveCtor (other : SRef) : SRef × SRef :=
  ((⟨other.ptr, other.cnt⟩ : SRef), (⟨none, none⟩ : SRef))

/-- Embedding of shared_ref move assignment for distinct objects: release
current ownership, steal both members, null the source.  Result is
(new target, emptied source, world). -/
def moveAssign (self other : SRef) (w : SWorld) : SRef × SRef × SWorld :=
  let r := remove_owner self w
  ((⟨other.ptr, other.cnt⟩ : SRef), (⟨none, none⟩ : SRef), r.2)

/-- Embedding of shared_ref::reset: release current ownership via
_remove_owner, then adopt the new pointer with a fresh counter at 1 when it
is non-null. -/
def reset (h : SRef) (p : Option Nat) (w : SWorld) : SRef × SWorld :=
  let r := remove_owner h w
  match p with
  | none => r
  | some a =>
    let (c, w2) := r.2.allocCounter 1
    ((⟨some a, some c⟩ : SRef), w2)

/-- Embedding of shared_ref::get_shared_ref_count: 0 on a null counter
pointer, else the cell value. -/
def get_shared_ref_count (h : SRef) (w : SWorld) : Nat :=
  match h.cnt with
  | none => 0
  | some c => (w.cellAt c).getD 0

/-- Embedding of the shared_ref bool conversion. -/
def toBool (h : SRef) : Bool := h.ptr ≠ none

end shared_ref

/-- A configuration: the family of handle objects currently alive (a slot
whose handle has been destroyed holds the inert empty handle) together
with the heap. -/
structure SCfg where
  handles : List SRef
  world : SWorld
deriving DecidableEq

/-- The handle stored at slot i. -/
def SCfg.hAt (cfg : SCfg) (i : Nat) : SRef := cfg.handles.getD i ⟨none, none⟩

/-- Effect of default-constructing a new shared_ref. -/
def SCfg.doCtorDefault (cfg : SCfg) : SCfg :=
  { cfg with handles := cfg.handles ++ [(⟨none, none⟩ : SRef)] }

/-- Effect of constructing a new shared_ref over a freshly allocated
pointee. -/
def SCfg.doCtorNew (cfg : SCfg) : SCfg :=
  let r1 := cfg.world.allocPointee
  let r2 := shared_ref.ctorFromPtr (some r1.1) r1.2
  ⟨cfg.handles ++ [r2.1], r2.2⟩

/-- Effect of copy-constructing a new handle from slot i. -/
def SCfg.doCopyCtor (cfg : SCfg) (i : Nat) : SCfg :=
  let r := shared_ref.copyCtor (cfg.hAt i) cfg.world
  ⟨cfg.handles ++ [r.1], r.2⟩

/-- Effect of copy-assigning slot j into slot i (distinct slots). -/
def SCfg.doCopyAssign (cfg : SCfg) (i j : Nat) : SCfg :=
  let r := shared_ref.copyAssign (cfg.hAt i) (cfg.hAt j) cfg.world
  ⟨cfg.handles.set i r.1, r.2⟩

/-- Effect of move-constructing a new handle from slot i. -/
def SCfg.doMoveCtor (cfg : SCfg) (i : Nat) : SCfg :=
  let r := shared_ref.moveCtor (cfg.hAt i)
  ⟨(cfg.handles.set i r.2) ++ [r.1], cfg.world⟩

/-- Effect of move-assigning slot j into slot i (distinct slots). -/
def SCfg.doMoveAssign (cfg : SCfg) (i j : Nat) : SCfg :=
  let r := shared_ref.moveAssign (cfg.hAt i) (cfg.hAt j) cfg.world
  ⟨(cfg.handles.set i r.1).set j r.2.1, r.2.2⟩

/-- Effect of reset(nullptr) on slot i. -/
def SCfg.doReset0 (cfg : SCfg) (i : Nat) : SCfg :=
  let r := shared_ref.reset (cfg.hAt i) none cfg.world
  ⟨cfg.handles.set i r.1, r.2⟩

/-- Effect of reset(new pointer) on slot i with a freshly allocated
pointee. -/
def SCfg.doResetNew (cfg : SCfg) (i : Nat) : SCfg :=
  let r1 := cfg.world.allocPointee
  let r2 := shared_ref.reset (cfg.hAt i) (some r1.1) r1.2
  ⟨cfg.handles.set i r2.1, r2.2⟩

/-- Effect of destroying the handle at slot i: the destructor runs and the
dead slot is represented by the inert empty handle. -/
def SCfg.doDtor (cfg : SCfg) (i : Nat) : SCfg :=
  ⟨cfg.handles.set i (⟨none, none⟩ : SRef), shared_ref.dtor (cfg.hAt i) cfg.world⟩

/-- One public shared_ref operation. -/
inductive SStep : SCfg → SCfg → Prop where
  | ctorDefault (cfg : SCfg) : SStep cfg cfg.doCtorDefault
  | ctorNew (cfg : SCfg) : SStep cfg cfg.doCtorNew
  | copyCtor (cfg : SCfg) (i : Nat) (hi : i < cfg.handles.length) :
      SStep cfg (cfg.doCopyCtor i)
  | copyAssign (cfg : SCfg) (i j : Nat) (hi : i < cfg.handles.length)
      (hj : j < cfg.handles.length) (hij : i ≠ j) : SStep cfg (cfg.doCopyAssign i j)
  | moveCtor (cfg : SCfg) (i : Nat) (hi : i < cfg.handles.length) :
      SStep cfg (cfg.doMoveCtor i)
  | moveAssign (cfg : SCfg) (i j : Nat) (hi : i < cfg.handles.length)
      (hj : j < cfg.handles.length) (hij : i ≠ j) : SStep cfg (cfg.doMoveAssign i j)
  | reset0 (cfg : SCfg) (i : Nat) (hi : i < cfg.handles.length) :
      SStep cfg (cfg.doReset0 i)
  | resetNew (cfg : SCfg) (i : Nat) (hi : i < cfg.handles.length) :
      SStep cfg (cfg.doResetNew i)
  | dtor (cfg : SCfg) (i : Nat) (hi : i < cfg.handles.length) :
      SStep cfg (cfg.doDtor i)

/-- The empty initial configuration. -/
def SCfg.init : SCfg := ⟨[], ⟨[], [], [], []⟩⟩

/-- Configurations reachable through the public shared_ref operations. -/
inductive SReachable : SCfg → Prop where
  | init : SReachable SCfg.init
  | step {c c' : SCfg} : SReachable c → SStep c c' → SReachable c'

/-- Number of live handles aliasing counter cell c. -/
def aliasCount (hs : List SRef) (c : Nat) : Nat :=
  hs.countP (fun h => decide (h.cnt = some c))

/-- The shared_ref family invariant: every handle has a null data pointer
exactly when it has a null counter pointer; every aliased counter cell is
in bounds and live; and every live counter cell holds exactly the number
of live handles aliasing it. -/
structure SInv (cfg : SCfg) : Prop where
  iffNull : ∀ h ∈ cfg.handles, h.ptr = none ↔ h.cnt = none
  aliasLive : ∀ h ∈ cfg.handles, ∀ c, h.cnt = some c →
    c < cfg.world.counters.length ∧ cfg.world.cellAt c ≠ none
  countEq : ∀ c v, cfg.world.cellAt c = some v → v = aliasCount cfg.handles c

/-- Embedding of ref_counter_t from src/mem/observed_ref.hpp: a strong and
a weak reference count, default-initialised to strong 1, weak 0. -/
structure ref_counter_t where
  strong_ref_count : Nat
  weak_ref_count : Nat
deriving DecidableEq

/-- The default constructor of ref_counter_t: member initialisers give
strong 1, weak 0. -/
def ref_counter_t.init : ref_counter_t := ⟨1, 0⟩

/-- Embedding of ref_counter_t::get_strong_count. -/
def ref_counter_t.get_strong_count (r : ref_counter_t) : Nat := r.strong_ref_count

/-- Embedding of ref_counter_t::get_weak_count. -/
def ref_counter_t.get_weak_count (r : ref_counter_t) : Nat := r.weak_ref_count

/-- Embedding of ref_counter_t::get_total_count. -/
def ref_counter_t.get_total_count (r : ref_counter_t) : Nat :=
  r.strong_ref_count + r.weak_ref_count

/-- Embedding of ref_counter_t::has_no_strong_ref. -/
def ref_counter_t.has_no_strong_ref (r : ref_counter_t) : Bool :=
  r.strong_ref_count = 0

/-- Embedding of ref_counter_t::has_no_weak_ref. -/
def ref_counter_t.has_no_weak_ref (r : ref_counter_t) : Bool :=
  r.weak_ref_count = 0

/-- Embedding of ref_counter_t::has_no_reference. -/
def ref_counter_t.has_no_reference (r : ref_counter_t) : Bool :=
  r.get_total_count = 0

/-- Embedding of ref_counter_t::inc_strong_ref. -/
def ref_counter_t.inc_strong_ref (r : ref_counter_t) : ref_counter_t :=
  { r with strong_ref_count := r.strong_ref_count + 1 }

/-- Embedding of ref_counter_t::dec_strong_ref.  The source decrements the
u_size counter; decrementing from zero is a bookkeeping fault that never
happens while the observed_ref invariants hold, modelled as Nat
subtraction. -/
def ref_counter_t.dec_strong_ref (r : ref_counter_t) : ref_counter_t :=
  { r with strong_ref_count := r.strong_ref_count - 1 }

/-- Embedding of ref_counter_t::inc_weak_ref. -/
def ref_counter_t.inc_weak_ref (r : ref_counter_t) : ref_counter_t :=
  { r with weak_ref_count := r.weak_ref_count + 1 }

/-- Embedding of ref_counter_t::dec_weak_ref. -/
def ref_counter_t.dec_weak_ref (r : ref_counter_t) : ref_counter_t :=
  { r with weak_ref_count := r.weak_ref_count - 1 }

/-- An observed_ref handle: the two data members of
src/mem/observed_ref.hpp. -/
structure ORef where
  ptr : Option Nat
  cnt : Option Nat
deriving DecidableEq

/-- Heap state for observed_ref families: pointee allocations, ref-counter
blocks, and free logs. -/
structure OWorld where
  pointees : List Bool
  ptrFreeLog : List Nat
  blocks : List (Option ref_counter_t)
  blockFreeLog : List Nat
deriving DecidableEq

/-- The ref-counter block at address c, or none if freed or never
allocated. -/
def OWorld.blockAt (w : OWorld) (c : Nat) : Option ref_counter_t :=
  w.blocks.getD c none

/-- Allocate a fresh pointee. -/
def OWorld.allocPointee (w : OWorld) : Nat × OWorld :=
  (w.pointees.length, { w with pointees := w.pointees ++ [true] })

/-- Allocate a fresh ref-counter block (models new ref_counter_t, strong 1,
weak 0). -/
def OWorld.allocBlock (w : OWorld) : Nat × OWorld :=
  (w.blocks.length, { w with blocks := w.blocks ++ [some ref_counter_t.init] })

/-- Embedding of delete on a T_ pointer in the observed world. -/
def OWorld.deletePointee (w : OWorld) (p : Option Nat) : OWorld :=
  match p with
  | none => w
  | some a => { w with pointees := w.pointees.set a false, ptrFreeLog := a :: w.ptrFreeLog }

/-- Embedding of delete on the ref-counter block pointer. -/
def OWorld.deleteBlock (w : OWorld) (c : Nat) : OWorld :=
  { w with blocks := w.blocks.set c none, blockFreeLog := c :: w.blockFreeLog }

/-- Overwrite the block at c. -/
def OWorld.writeBlock (w : OWorld) (c : Nat) (r : ref_counter_t) : OWorld :=
  { w with blocks := w.blocks.set c (some r) }

namespace observed_ref

/-- Embedding of observed_ref::_add_owner: increments the strong count only
when both members are non-null. -/
def add_owner (h : ORef) (w : OWorld) : OWorld :=
  match h.ptr, h.cnt with
  | some _, some c =>
    match w.blockAt c with
    | none => w
    | some r => w.writeBlock c r.inc_strong_ref
  | _, _ => w

/-- Embedding of observed_ref::_remove_owner: early return when either
member is null; otherwise decrement the strong count, delete the pointee
when no strong references remain, delete the block when no references at
all remain, then null both members. -/
def remove_owner (h : ORef) (w : OWorld) : ORef × OWorld :=
  match h.ptr, h.cnt with
  | some p, some c =>
    let r := (w.blockAt c).getD ref_counter_t.init
    let r1 := r.dec_strong_ref
    let w1 := w.writeBlock c r1
    let w2 := if r1.has_no_strong_ref then w1.deletePointee (some p) else w1
    let w3 := if r1.has_no_reference then w2.deleteBlock c else w2
    ((⟨none, none⟩ : ORef), w3)
  | _, _ => (h, w)

/-- Embedding of the observed_ref pointer constructor: a non-null pointer
gets a fresh block at strong 1, weak 0; nullptr yields an empty handle. -/
def ctorFromPtr (p : Option Nat) (w : OWorld) : ORef × OWorld :=
  match p with
  | none => ((⟨none, none⟩ : ORef), w)
  | some a =>
    let (c, w1) := w.allocBlock
    ((⟨some a, some c⟩ : ORef), w1)

/-- Embedding of the observed_ref destructor: it calls _remove_owner with
the members intact (unlike shared_ref, it does not null _ptr first). -/
def dtor (h : ORef) (w : OWorld) : OWorld := (remove_owner h w).2

/-- Embedding of the observed_ref copy constructor: alias both members,
then _add_owner. -/
def copyCtor (other : ORef) (w : OWorld) : ORef × OWorld :=
  let h : ORef := ⟨other.ptr, other.cnt⟩
  (h, add_owner h w)

/-- Embedding of observed_ref copy assignment for distinct objects. -/
def copyAssign (self other : ORef) (w : OWorld) : ORef × OWorld :=
  let r := remove_owner self w
  let h : ORef := ⟨other.ptr, other.cnt⟩
  (h, add_owner h r.2)

/-- Embedding of the observed_ref move constructor. -/
def moveCtor (other : ORef) : ORef × ORef :=
  ((⟨other.ptr, other.cnt⟩ : ORef), (⟨none, none⟩ : ORef))

/-- Embedding of observed_ref move assignment for distinct objects: release
current ownership, then swap members with the source; after _remove_owner
the members of this object are null, so the swap hands the members of the
source to
the target and empties the source. -/
def moveAssign (self other : ORef) (w : OWorld) : ORef × ORef × OWorld :=
  let r := remove_owner self w
  ((⟨other.ptr, other.cnt⟩ : ORef), r.1, r.2)

/-- Embedding of observed_ref::reset. -/
def reset (h : ORef) (p : Option Nat) (w : OWorld) : ORef × OWorld :=
  let r := remove_owner h w
  match p with
  | none => r
  | some a =>
    let (c, w2) := r.2.allocBlock
    ((⟨some a, some c⟩ : ORef), w2)

/-- Embedding of the observed_ref bool conversion. -/
def toBool (h : ORef) : Bool := h.ptr ≠ none

/-- The strong count an observed_ref family reports through
get_ref_counter, 0 for an empty handle or freed block. -/
def strongCountOf (h : ORef) (w : OWorld) : Nat :=
  match h.cnt with
  | none => 0
  | some c => ((w.blockAt c).getD ⟨0, 0⟩).get_strong_count

end observed_ref

/-- A configuration of observed_ref handles plus heap. -/
structure OCfg where
  handles : List ORef
  world : OWorld
deriving DecidableEq

/-- The handle stored at slot i. -/
def OCfg.hAt (cfg : OCfg) (i : Nat) : ORef := cfg.handles.getD i ⟨none, none⟩

/-- Effect of default-constructing a new observed_ref. -/
def OCfg.doCtorDefault (cfg : OCfg) : OCfg :=
  { cfg with handles := cfg.handles ++ [(⟨none, none⟩ : ORef)] }

/-- Effect of constructing a new observed_ref over a fresh pointee. -/
def OCfg.doCtorNew (cfg : OCfg) : OCfg :=
  let r1 := cfg.world.allocPointee
  let r2 := observed_ref.ctorFromPtr (some r1.1) r1.2
  ⟨cfg.handles ++ [r2.1], r2.2⟩

/-- Effect of copy-constructing from slot i. -/
def OCfg.doCopyCtor (cfg : OCfg) (i : Nat) : OCfg :=
  let r := observed_ref.copyCtor (cfg.hAt i) cfg.world
  ⟨cfg.handles ++ [r.1], r.2⟩

/-- Effect of copy-assigning slot j into slot i. -/
def OCfg.doCopyAssign (cfg : OCfg) (i j : Nat) : OCfg :=
  let r := observed_ref.copyAssign (cfg.hAt i) (cfg.hAt j) cfg.world
  ⟨cfg.handles.set i r.1, r.2⟩

/-- Effect of move-constructing from slot i. -/
def OCfg.doMoveCtor (cfg : OCfg) (i : Nat) : OCfg :=
  let r := observed_ref.moveCtor (cfg.hAt i)
  ⟨(cfg.handles.set i r.2) ++ [r.1], cfg.world⟩

/-- Effect of move-assigning slot j into slot i. -/
def OCfg.doMoveAssign (cfg : OCfg) (i j : Nat) : OCfg :=
  let r := observed_ref.moveAssign (cfg.hAt i) (cfg.hAt j) cfg.world
  ⟨(cfg.handles.set i r.1).set j r.2.1, r.2.2⟩

/-- Effect of reset(nullptr) on slot i. -/
def OCfg.doReset0 (cfg : OCfg) (i : Nat) : OCfg :=
  let r := observed_ref.reset (cfg.hAt i) none cfg.world
  ⟨cfg.handles.set i r.1, r.2⟩

/-- Effect of reset(new pointer) on slot i. -/
def OCfg.doResetNew (cfg : OCfg) (i : Nat) : OCfg :=
  let r1 := cfg.world.allocPointee
  let r2 := observed_ref.reset (cfg.hAt i) (some r1.1) r1.2
  ⟨cfg.handles.set i r2.1, r2.2⟩

/-- Effect of destroying the handle at slot i. -/
def OCfg.doDtor (cfg : OCfg) (i : Nat) : OCfg :=
  ⟨cfg.handles.set i (⟨none, none⟩ : ORef), observed_ref.dtor (cfg.hAt i) cfg.world⟩

/-- One public observed_ref operation. -/
inductive OStep : OCfg → OCfg → Prop where
  | ctorDefault (cfg : OCfg) : OStep cfg cfg.doCtorDefault
  | ctorNew (cfg : OCfg) : OStep cfg cfg.doCtorNew
  | copyCtor (cfg : OCfg) (i : Nat) (hi : i < cfg.handles.length) :
      OStep cfg (cfg.doCopyCtor i)
  | copyAssign (cfg : OCfg) (i j : Nat) (hi : i < cfg.handles.length)
      (hj : j < cfg.handles.length) (hij : i ≠ j) : OStep cfg (cfg.doCopyAssign i j)
  | moveCtor (cfg : OCfg) (i : Nat) (hi : i < cfg.handles.length) :
      OStep cfg (cfg.doMoveCtor i)
  | moveAssign (cfg : OCfg) (i j : Nat) (hi : i < cfg.handles.length)
      (hj : j < cfg.handles.length) (hij : i ≠ j) : OStep cfg (cfg.doMoveAssign i j)
  | reset0 (cfg : OCfg) (i : Nat) (hi : i < cfg.handles.length) :
      OStep cfg (cfg.doReset0 i)
  | resetNew (cfg : OCfg) (i : Nat) (hi : i < cfg.handles.length) :
      OStep cfg (cfg.doResetNew i)
  | dtor (cfg : OCfg) (i : Nat) (hi : i < cfg.handles.length) :
      OStep cfg (cfg.doDtor i)

/-- The empty initial observed configuration. -/
def OCfg.init : OCfg := ⟨[], ⟨[], [], [], []⟩⟩

/-- Configurations reachable through the public observed_ref operations. -/
inductive OReachable : OCfg → Prop where
  | init : OReachable OCfg.init
  | step {c c' : OCfg} : OReachable c → OStep c c' → OReachable c'

/-- A unique_ref handle: the single data member of src/mem/unique_ref.hpp. -/
structure unique_ref where
  ptr : Option Nat
deriving DecidableEq

/-- Embedding of the unique_ref pointer constructor. -/
def unique_ref.ctorFromPtr (p : Option Nat) : unique_ref := ⟨p⟩

/-- Embedding of unique_ref::release: returns the raw pointer and clears
the member to empty. -/
def unique_ref.release (h : unique_ref) : unique_ref × Option Nat :=
  ((⟨none⟩ : unique_ref), h.ptr)

/-- Embedding of the unique_ref destructor: delete _ptr, a no-op when
empty.  The unique world reuses SWorld (the counter table is unused). -/
def unique_ref.dtor (h : unique_ref) (w : SWorld) : SWorld :=
  w.deletePointee h.ptr

/-- Embedding of the unique_ref bool conversion. -/
def unique_ref.toBool (h : unique_ref) : Bool := h.ptr ≠ none

end xen

section ListHelpers

variable {α : Type}

/-- A getD that returns a non-default value is an in-bounds read. -/
theorem getD_some_lt (l : List (Option α)) (c : Nat) (x : α)
    (h : l.getD c none = some x) : c < l.length := by
  by_contra hc
  rw [List.getD_eq_getElem?_getD, List.getElem?_eq_none (by omega)] at h
  simp at h

/-- Reading the just-written slot. -/
theorem getD_set_self (l : List α) (i : Nat) (a d : α) (h : i < l.length) :
    (l.set i a).getD i d = a := by
  rw [List.getD_eq_getElem?_getD, List.getElem?_set_self h]
  rfl

/-- Reading another slot after a write. -/
theorem getD_set_ne (l : List α) (i j : Nat) (a d : α) (h : i ≠ j) :
    (l.set i a).getD j d = l.getD j d := by
  rw [List.getD_eq_getElem?_getD, List.getElem?_set_ne h, ← List.getD_eq_getElem?_getD]

/-- Reading an old slot after appending. -/
theorem getD_append_left (l l2 : List α) (i : Nat) (d : α) (h : i < l.length) :
    (l ++ l2).getD i d = l.getD i d := by
  rw [List.getD_eq_getElem?_getD, List.getElem?_append, if_pos h, ← List.getD_eq_getElem?_getD]

/-- Reading the appended slot. -/
theorem getD_append_self (l : List α) (a d : α) :
    (l ++ [a]).getD l.length d = a := by
  rw [List.getD_eq_getElem?_getD, List.getElem?_append, if_neg (by omega)]
  simp

/-- Reading past the end of an appended singleton. -/
theorem getD_append_past (l : List α) (a d : α) (i : Nat) (h : l.length < i) :
    (l ++ [a]).getD i d = d := by
  rw [List.getD_eq_getElem?_getD, List.getElem?_eq_none (by simp; omega)]
  rfl

/-- Additive form of countP over a single-slot update: no truncated
subtraction. -/
theorem countP_set_add (p : α → Bool) (l : List α) (i : Nat) (a : α)
    (h : i < l.length) :
    (l.set i a).countP p + (if p (l.get ⟨i, h⟩) then 1 else 0)
      = l.countP p + (if p a then 1 else 0) := by
  rw [List.countP_set p l i a h]
  have hmem : l[i] ∈ l := List.getElem_mem h
  simp only [List.get_eq_getElem]
  by_cases hp : p l[i] = true
  · have h1 : 0 < l.countP p := List.countP_pos_iff.mpr ⟨l[i], hmem, hp⟩
    by_cases hq : p a = true <;> simp [hp, hq] <;> omega
  · by_cases hq : p a = true <;> simp [hp, hq]

end ListHelpers

namespace xen

/-- Additive single-slot-update law for aliasCount. -/
theorem aliasCount_set (hs : List SRef) (i : Nat) (h' : SRef) (c : Nat)
    (hi : i < hs.length) :
    aliasCount (hs.set i h') c + (if (hs.get ⟨i, hi⟩).cnt = some c then 1 else 0)
      = aliasCount hs c + (if h'.cnt = some c then 1 else 0) := by
  have := countP_set_add (fun h => decide (h.cnt = some c)) hs i h' hi
  simpa [aliasCount, decide_eq_true_eq] using this

/-- Appending handles adds their aliases. -/
theorem aliasCount_append (hs hs2 : List SRef) (c : Nat) :
    aliasCount (hs ++ hs2) c = aliasCount hs c + aliasCount hs2 c := by
  simp [aliasCount, List.countP_append]

/-- A singleton family counts its one handle. -/
theorem aliasCount_singleton (h : SRef) (c : Nat) :
    aliasCount [h] c = if h.cnt = some c then 1 else 0 := by
  simp [aliasCount, List.countP_cons]

/-- An aliasing member forces a positive count. -/
theorem aliasCount_pos {hs : List SRef} {h : SRef} (hm : h ∈ hs) {c : Nat}
    (hc : h.cnt = some c) : 1 ≤ aliasCount hs c := by
  have : 0 < aliasCount hs c :=
    List.countP_pos_iff.mpr ⟨h, hm, by simp [hc]⟩
  omega

/-- A zero count means no member aliases the cell. -/
theorem aliasCount_eq_zero {hs : List SRef} {c : Nat} (h0 : aliasCount hs c = 0) :
    ∀ h ∈ hs, h.cnt ≠ some c := by
  intro h hm hc
  exact absurd h0 (by have := aliasCount_pos hm hc; omega)

/-- Pointee-side heap edits leave the counter table untouched. -/
theorem SWorld.counters_deletePointee (w : SWorld) (p : Option Nat) :
    (w.deletePointee p).counters = w.counters := by
  cases p <;> rfl

/-- Writing a cell keeps the table length. -/
theorem SWorld.length_writeCounter (w : SWorld) (c v : Nat) :
    (w.writeCounter c v).counters.length = w.counters.length := by
  simp [SWorld.writeCounter]

/-- Deleting a cell keeps the table length. -/
theorem SWorld.length_deleteCounter (w : SWorld) (c : Nat) :
    (w.deleteCounter c).counters.length = w.counters.length := by
  simp [SWorld.deleteCounter]

/-- Reading the written cell. -/
theorem SWorld.cellAt_writeCounter_self (w : SWorld) (c v : Nat)
    (h : c < w.counters.length) : (w.writeCounter c v).cellAt c = some v :=
  getD_set_self _ _ _ _ h

/-- Reading another cell after a write. -/
theorem SWorld.cellAt_writeCounter_ne (w : SWorld) (c v c' : Nat) (h : c ≠ c') :
    (w.writeCounter c v).cellAt c' = w.cellAt c' :=
  getD_set_ne _ _ _ _ _ h

/-- Reading the deleted cell. -/
theorem SWorld.cellAt_deleteCounter_self (w : SWorld) (c : Nat)
    (h : c < w.counters.length) : (w.deleteCounter c).cellAt c = none :=
  getD_set_self _ _ _ _ h

/-- Reading another cell after a delete. -/
theorem SWorld.cellAt_deleteCounter_ne (w : SWorld) (c c' : Nat) (h : c ≠ c') :
    (w.deleteCounter c).cellAt c' = w.cellAt c' :=
  getD_set_ne _ _ _ _ _ h

/-- Pointee deletes do not move counter cells. -/
theorem SWorld.cellAt_deletePointee (w : SWorld) (p : Option Nat) (c : Nat) :
    (w.deletePointee p).cellAt c = w.cellAt c := by
  cases p <;> rfl

/-- An aliased or live cell address is in bounds. -/
theorem SWorld.cellAt_lt {w : SWorld} {c : Nat} {v : Nat}
    (h : w.cellAt c = some v) : c < w.counters.length :=
  getD_some_lt _ _ _ h

/-- In-bounds slots agree with list indexing. -/
theorem SCfg.hAt_eq {cfg : SCfg} {i : Nat} (hi : i < cfg.handles.length) :
    cfg.hAt i = cfg.handles.get ⟨i, hi⟩ := by
  simp only [SCfg.hAt, List.get_eq_getElem]
  exact List.getD_eq_getElem _ _ hi

/-- In-bounds slots hold members of the family. -/
theorem SCfg.hAt_mem {cfg : SCfg} {i : Nat} (hi : i < cfg.handles.length) :
    cfg.hAt i ∈ cfg.handles := by
  rw [SCfg.hAt_eq hi]
  simp only [List.get_eq_getElem]
  exact List.getElem_mem hi

/-- Computation law: _remove_owner with a null counter pointer is the early
return. -/
theorem shared_ref.remove_owner_none (s : SRef) (w : SWorld) (hsc : s.cnt = none) :
    shared_ref.remove_owner s w = (s, w) := by
  unfold shared_ref.remove_owner
  rw [hsc]

/-- Computation law: _remove_owner over a live counter cell decrements it,
freeing pointee and cell when the count hits zero. -/
theorem shared_ref.remove_owner_some (s : SRef) (w : SWorld) (c0 v0 : Nat)
    (hsc : s.cnt = some c0) (hv : w.cellAt c0 = some v0) :
    shared_ref.remove_owner s w =
      if v0 - 1 = 0 then
        ((⟨none, none⟩ : SRef),
          ((w.writeCounter c0 (v0 - 1)).deletePointee s.ptr).deleteCounter c0)
      else ((⟨none, none⟩ : SRef), w.writeCounter c0 (v0 - 1)) := by
  unfold shared_ref.remove_owner
  rw [hsc]
  simp [hv]

/-- The handle member of a _remove_owner result is always the empty handle,
for any input handle not of the ill-formed null-counter non-null-pointer
shape. -/
theorem shared_ref.remove_owner_fst (s : SRef) (w : SWorld)
    (hp : s.cnt = none → s.ptr = none) :
    (shared_ref.remove_owner s w).1 = (⟨none, none⟩ : SRef) := by
  cases hsc : s.cnt with
  | none =>
    have hpn : s.ptr = none := hp hsc
    rw [shared_ref.remove_owner_none s w hsc]
    cases s
    simp_all
  | some c0 =>
    cases hv : w.cellAt c0 with
    | none =>
      unfold shared_ref.remove_owner
      rw [hsc]
      simp [hv]
    | some v0 =>
      rw [shared_ref.remove_owner_some s w c0 v0 hsc hv]
      split <;> rfl

/-- Computation law: _add_owner with a null counter pointer does nothing. -/
theorem shared_ref.add_owner_none (h : SRef) (w : SWorld) (hc : h.cnt = none) :
    shared_ref.add_owner h w = w := by
  unfold shared_ref.add_owner
  rw [hc]

/-- Computation law: _add_owner over a live cell increments it. -/
theorem shared_ref.add_owner_some (h : SRef) (w : SWorld) (c v : Nat)
    (hc : h.cnt = some c) (hv : w.cellAt c = some v) :
    shared_ref.add_owner h w = w.writeCounter c (v + 1) := by
  unfold shared_ref.add_owner
  rw [hc]
  simp [hv]

/-- In the dead branch of _remove_owner the counter table ends with the
cell cleared; pointee deletes touch only the pointee side. -/
theorem SWorld.dead_counters (w : SWorld) (c0 x : Nat) (p : Option Nat) :
    (((w.writeCounter c0 x).deletePointee p).deleteCounter c0).counters
      = w.counters.set c0 none := by
  cases p <;> simp [SWorld.writeCounter, SWorld.deletePointee, SWorld.deleteCounter,
    List.set_set]

/-- Running _remove_owner on the handle at slot i (or on any handle whose
counter member agrees with it, as the destructor does after nulling _ptr)
and storing the resulting emptied handle back preserves the family
invariant. -/
theorem SInv.remove_at {cfg : SCfg} (inv : SInv cfg) (i : Nat)
    (hi : i < cfg.handles.length) (s : SRef) (hc : s.cnt = (cfg.hAt i).cnt)
    (hp : s.cnt = none → s.ptr = none) :
    SInv ⟨cfg.handles.set i (shared_ref.remove_owner s cfg.world).1,
          (shared_ref.remove_owner s cfg.world).2⟩ := by
  have hfst := shared_ref.remove_owner_fst s cfg.world hp
  have hgi : (cfg.handles.get ⟨i, hi⟩) = cfg.hAt i := (SCfg.hAt_eq hi).symm
  rw [hfst]
  cases hsc : s.cnt with
  | none =>
    have hicnt : (cfg.hAt i).cnt = none := hc ▸ hsc
    rw [shared_ref.remove_owner_none s cfg.world hsc]
    refine ⟨?_, ?_, ?_⟩ <;> dsimp only
    · intro h hm
      rcases List.mem_or_eq_of_mem_set hm with hold | hnew
      · exact inv.iffNull h hold
      · subst hnew; simp
    · intro h hm c hcc
      rcases List.mem_or_eq_of_mem_set hm with hold | hnew
      · exact inv.aliasLive h hold c hcc
      · subst hnew; simp at hcc
    · intro c v hcell
      rw [inv.countEq c v hcell]
      have hst := aliasCount_set cfg.handles i (⟨none, none⟩ : SRef) c hi
      rw [hgi] at hst
      simp [hicnt] at hst
      omega
  | some c0 =>
    have hial : (cfg.hAt i).cnt = some c0 := hc ▸ hsc
    have hmem : cfg.hAt i ∈ cfg.handles := SCfg.hAt_mem hi
    obtain ⟨hlt, hlive⟩ := inv.aliasLive _ hmem c0 hial
    obtain ⟨v0, hv⟩ : ∃ v0, cfg.world.cellAt c0 = some v0 := by
      cases hx : cfg.world.cellAt c0
      · exact absurd hx hlive
      · exact ⟨_, rfl⟩
    have hv0 : v0 = aliasCount cfg.handles c0 := inv.countEq c0 v0 hv
    have hpos : 1 ≤ aliasCount cfg.handles c0 := aliasCount_pos hmem hial
    have hset := aliasCount_set cfg.handles i (⟨none, none⟩ : SRef) c0 hi
    rw [hgi] at hset
    simp [hial] at hset
    have hsetgen : ∀ c, c ≠ c0 →
        aliasCount (cfg.handles.set i (⟨none, none⟩ : SRef)) c
          = aliasCount cfg.handles c := by
      intro c hcne
      have hst := aliasCount_set cfg.handles i (⟨none, none⟩ : SRef) c hi
      rw [hgi] at hst
      have hx : (cfg.hAt i).cnt ≠ some c := by
        rw [hial]; intro hx; cases hx; exact hcne rfl
      simp [hx] at hst
      omega
    rw [shared_ref.remove_owner_some s cfg.world c0 v0 hsc hv]
    by_cases h0 : v0 - 1 = 0
    · rw [if_pos h0]
      have hctrs := SWorld.dead_counters cfg.world c0 (v0 - 1) s.ptr
      have hcell0 : ((((cfg.world.writeCounter c0 (v0 - 1)).deletePointee
          s.ptr).deleteCounter c0)).cellAt c0 = none := by
        unfold SWorld.cellAt
        rw [hctrs]
        exact getD_set_self _ _ _ _ hlt
      have hcellAt : ∀ c, c ≠ c0 →
          ((((cfg.world.writeCounter c0 (v0 - 1)).deletePointee
            s.ptr).deleteCounter c0)).cellAt c = cfg.world.cellAt c := by
        intro c hcne
        unfold SWorld.cellAt
        rw [hctrs]
        exact getD_set_ne _ _ _ _ _ (fun hx => hcne hx.symm)
      have hlen : ((((cfg.world.writeCounter c0 (v0 - 1)).deletePointee
          s.ptr).deleteCounter c0)).counters.length = cfg.world.counters.length := by
        rw [hctrs]; exact List.length_set _ _ _
      have hzero : aliasCount (cfg.handles.set i (⟨none, none⟩ : SRef)) c0 = 0 := by
        omega
      refine ⟨?_, ?_, ?_⟩ <;> dsimp only
      · intro h hm
        rcases List.mem_or_eq_of_mem_set hm with hold | hnew
        · exact inv.iffNull h hold
        · subst hnew; simp
      · intro h hm c hcc
        by_cases hcne : c = c0
        · subst hcne
          exact absurd hcc (aliasCount_eq_zero hzero h hm)
        · rcases List.mem_or_eq_of_mem_set hm with hold | hnew
          · obtain ⟨hl1, hl2⟩ := inv.aliasLive h hold c hcc
            exact ⟨by omega, by rw [hcellAt c hcne]; exact hl2⟩
          · subst hnew; simp at hcc
      · intro c v hcell
        by_cases hcne : c = c0
        · subst hcne; rw [hcell0] at hcell; cases hcell
        · rw [hcellAt c hcne] at hcell
          rw [inv.countEq c v hcell, hsetgen c hcne]
    · rw [if_neg h0]
      refine ⟨?_, ?_, ?_⟩ <;> dsimp only
      · intro h hm
        rcases List.mem_or_eq_of_mem_set hm with hold | hnew
        · exact inv.iffNull h hold
        · subst hnew; simp
      · intro h hm c hcc
        by_cases hcne : c = c0
        · subst hcne
          refine ⟨by rw [SWorld.length_writeCounter]; exact hlt, ?_⟩
          rw [SWorld.cellAt_writeCounter_self _ _ _ hlt]
          simp
        · rcases List.mem_or_eq_of_mem_set hm with hold | hnew
          · obtain ⟨hl1, hl2⟩ := inv.aliasLive h hold c hcc
            refine ⟨by rw [SWorld.length_writeCounter]; exact hl1, ?_⟩
            rw [SWorld.cellAt_writeCounter_ne _ _ _ _ (fun hx => hcne hx.symm)]
            exact hl2
          · subst hnew; simp at hcc
      · intro c v hcell
        by_cases hcne : c = c0
        · subst hcne
          rw [SWorld.cellAt_writeCounter_self _ _ _ hlt] at hcell
          cases hcell
          omega
        · rw [SWorld.cellAt_writeCounter_ne _ _ _ _ (fun hx => hcne hx.symm)] at hcell
          rw [inv.countEq c v hcell, hsetgen c hcne]

/-- The family invariant only reads the counter table, so pointee-side heap
changes are irrelevant. -/
theorem SInv.counters_congr {hs : List SRef} {w w2 : SWorld} (inv : SInv ⟨hs, w⟩)
    (hcw : w2.counters = w.counters) : SInv ⟨hs, w2⟩ := by
  have hca : ∀ c, w2.cellAt c = w.cellAt c := by
    intro c; unfold SWorld.cellAt; rw [hcw]
  refine ⟨inv.iffNull, ?_, ?_⟩ <;> dsimp only
  · intro h hm c hcc
    obtain ⟨h1, h2⟩ := inv.aliasLive h hm c hcc
    exact ⟨by rw [hcw]; exact h1, by rw [hca]; exact h2⟩
  · intro c v hcell
    rw [hca] at hcell
    exact inv.countEq c v hcell

/-- Appending a fresh empty handle preserves the invariant. -/
theorem SInv.append_empty {cfg : SCfg} (inv : SInv cfg) :
    SInv ⟨cfg.handles ++ [(⟨none, none⟩ : SRef)], cfg.world⟩ := by
  refine ⟨?_, ?_, ?_⟩ <;> dsimp only
  · intro h hm
    rcases List.mem_append.mp hm with hold | hnew
    · exact inv.iffNull h hold
    · simp at hnew; subst hnew; simp
  · intro h hm c hcc
    rcases List.mem_append.mp hm with hold | hnew
    · exact inv.aliasLive h hold c hcc
    · simp at hnew; subst hnew; simp at hcc
  · intro c v hcell
    rw [inv.countEq c v hcell, aliasCount_append, aliasCount_singleton]
    simp

/-- Placing an aliasing copy of an existing family member into an empty
slot and running _add_owner preserves the invariant. -/
theorem SInv.place_at {cfg : SCfg} (inv : SInv cfg) (i : Nat)
    (hi : i < cfg.handles.length) (hslot : cfg.hAt i = (⟨none, none⟩ : SRef))
    (o : SRef) (ho : o ∈ cfg.handles) :
    SInv ⟨cfg.handles.set i o, shared_ref.add_owner o cfg.world⟩ := by
  have hgi : (cfg.handles.get ⟨i, hi⟩) = cfg.hAt i := (SCfg.hAt_eq hi).symm
  have hsetgen : ∀ c, aliasCount (cfg.handles.set i o) c
      = aliasCount cfg.handles c + (if o.cnt = some c then 1 else 0) := by
    intro c
    have hst := aliasCount_set cfg.handles i o c hi
    rw [hgi, hslot] at hst
    simp at hst
    omega
  cases hoc : o.cnt with
  | none =>
    rw [shared_ref.add_owner_none o cfg.world hoc]
    refine ⟨?_, ?_, ?_⟩ <;> dsimp only
    · intro h hm
      rcases List.mem_or_eq_of_mem_set hm with hold | hnew
      · exact inv.iffNull h hold
      · subst hnew; exact inv.iffNull _ ho
    · intro h hm c hcc
      rcases List.mem_or_eq_of_mem_set hm with hold | hnew
      · exact inv.aliasLive h hold c hcc
      · subst hnew; exact inv.aliasLive _ ho c hcc
    · intro c v hcell
      rw [inv.countEq c v hcell, hsetgen c, hoc]
      simp
  | some c0 =>
    obtain ⟨hlt, hlive⟩ := inv.aliasLive o ho c0 hoc
    obtain ⟨v0, hv⟩ : ∃ v0, cfg.world.cellAt c0 = some v0 := by
      cases hx : cfg.world.cellAt c0
      · exact absurd hx hlive
      · exact ⟨_, rfl⟩
    have hv0 : v0 = aliasCount cfg.handles c0 := inv.countEq c0 v0 hv
    rw [shared_ref.add_owner_some o cfg.world c0 v0 hoc hv]
    refine ⟨?_, ?_, ?_⟩ <;> dsimp only
    · intro h hm
      rcases List.mem_or_eq_of_mem_set hm with hold | hnew
      · exact inv.iffNull h hold
      · subst hnew; exact inv.iffNull _ ho
    · intro h hm c hcc
      have hm2 : h ∈ cfg.handles ∨ h = o := List.mem_or_eq_of_mem_set hm
      have hm3 : h ∈ cfg.handles := by
        rcases hm2 with hold | hnew
        · exact hold
        · subst hnew; exact ho
      obtain ⟨hl1, hl2⟩ := inv.aliasLive h hm3 c hcc
      refine ⟨by rw [SWorld.length_writeCounter]; exact hl1, ?_⟩
      by_cases hcne : c = c0
      · subst hcne
        rw [SWorld.cellAt_writeCounter_self _ _ _ hlt]
        simp
      · rw [SWorld.cellAt_writeCounter_ne _ _ _ _ (fun hx => hcne hx.symm)]
        exact hl2
    · intro c v hcell
      by_cases hcne : c = c0
      · subst hcne
        rw [SWorld.cellAt_writeCounter_self _ _ _ hlt] at hcell
        cases hcell
        rw [hsetgen c, hoc]
        simp
        omega
      · rw [SWorld.cellAt_writeCounter_ne _ _ _ _ (fun hx => hcne hx.symm)] at hcell
        rw [inv.countEq c v hcell, hsetgen c, hoc]
        have : ¬ ((some c0 : Option Nat) = some c) := by
          intro hx; cases hx; exact hcne rfl
        simp [this]

/-- Appending an aliasing copy of an existing family member and running
_add_owner preserves the invariant. -/
theorem SInv.append_copy {cfg : SCfg} (inv : SInv cfg) (o : SRef)
    (ho : o ∈ cfg.handles) :
    SInv ⟨cfg.handles ++ [o], shared_ref.add_owner o cfg.world⟩ := by
  have hsetgen : ∀ c, aliasCount (cfg.handles ++ [o]) c
      = aliasCount cfg.handles c + (if o.cnt = some c then 1 else 0) := by
    intro c
    rw [aliasCount_append, aliasCount_singleton]
  cases hoc : o.cnt with
  | none =>
    rw [shared_ref.add_owner_none o cfg.world hoc]
    refine ⟨?_, ?_, ?_⟩ <;> dsimp only
    · intro h hm
      rcases List.mem_append.mp hm with hold | hnew
      · exact inv.iffNull h hold
      · simp at hnew; subst hnew; exact inv.iffNull _ ho
    · intro h hm c hcc
      rcases List.mem_append.mp hm with hold | hnew
      · exact inv.aliasLive h hold c hcc
      · simp at hnew; subst hnew; exact inv.aliasLive _ ho c hcc
    · intro c v hcell
      rw [inv.countEq c v hcell, hsetgen c, hoc]
      simp
  | some c0 =>
    obtain ⟨hlt, hlive⟩ := inv.aliasLive o ho c0 hoc
    obtain ⟨v0, hv⟩ : ∃ v0, cfg.world.cellAt c0 = some v0 := by
      cases hx : cfg.world.cellAt c0
      · exact absurd hx hlive
      · exact ⟨_, rfl⟩
    have hv0 : v0 = aliasCount cfg.handles c0 := inv.countEq c0 v0 hv
    rw [shared_ref.add_owner_some o cfg.world c0 v0 hoc hv]
    refine ⟨?_, ?_, ?_⟩ <;> dsimp only
    · intro h hm
      rcases List.mem_append.mp hm with hold | hnew
      · exact inv.iffNull h hold
      · simp at hnew; subst hnew; exact inv.iffNull _ ho
    · intro h hm c hcc
      have hm3 : h ∈ cfg.handles ∨ h = o := by
        rcases List.mem_append.mp hm with hold | hnew
        · exact Or.inl hold
        · simp at hnew; exact Or.inr hnew
      have hm4 : h ∈ cfg.handles := by
        rcases hm3 with hold | hnew
        · exact hold
        · subst hnew; exact ho
      obtain ⟨hl1, hl2⟩ := inv.aliasLive h hm4 c hcc
      refine ⟨by rw [SWorld.length_writeCounter]; exact hl1, ?_⟩
      by_cases hcne : c = c0
      · subst hcne
        rw [SWorld.cellAt_writeCounter_self _ _ _ hlt]
        simp
      · rw [SWorld.cellAt_writeCounter_ne _ _ _ _ (fun hx => hcne hx.symm)]
        exact hl2
    · intro c v hcell
      by_cases hcne : c = c0
      · subst hcne
        rw [SWorld.cellAt_writeCounter_self _ _ _ hlt] at hcell
        cases hcell
        rw [hsetgen c, hoc]
        simp
        omega
      · rw [SWorld.cellAt_writeCounter_ne _ _ _ _ (fun hx => hcne hx.symm)] at hcell
        rw [inv.countEq c v hcell, hsetgen c, hoc]
        have : ¬ ((some c0 : Option Nat) = some c) := by
          intro hx; cases hx; exact hcne rfl
        simp [this]

/-- Common facts about allocating a fresh counter cell at value 1: the new
cell address is outside every existing alias. -/
theorem SInv.fresh_cell_facts {cfg : SCfg} (inv : SInv cfg) :
    aliasCount cfg.handles cfg.world.counters.length = 0
    ∧ (∀ h ∈ cfg.handles, h.cnt ≠ some cfg.world.counters.length) := by
  have hnone : ∀ h ∈ cfg.handles, h.cnt ≠ some cfg.world.counters.length := by
    intro h hm hcc
    obtain ⟨hl1, _⟩ := inv.aliasLive h hm _ hcc
    omega
  refine ⟨?_, hnone⟩
  by_contra hne
  have hpos : 0 < aliasCount cfg.handles cfg.world.counters.length := by omega
  obtain ⟨h, hm, hp⟩ := List.countP_pos_iff.mp hpos
  simp at hp
  exact hnone h hm hp

/-- Cell reads over an appended fresh cell. -/
theorem SWorld.cellAt_append_fresh (w : SWorld) (x : Option Nat) (c : Nat) :
    ({ w with counters := w.counters ++ [x] } : SWorld).cellAt c
      = if _hc : c < w.counters.length then w.cellAt c
        else if c = w.counters.length then x else none := by
  unfold SWorld.cellAt
  dsimp only
  by_cases h1 : c < w.counters.length
  · rw [dif_pos h1, getD_append_left _ _ _ _ h1]
  · rw [dif_neg h1]
    by_cases h2 : c = w.counters.length
    · subst h2
      rw [if_pos rfl, getD_append_self]
    · rw [if_neg h2, getD_append_past _ _ _ _ (by omega)]

/-- Appending a handle that owns a freshly appended counter cell at value 1
preserves the invariant. -/
theorem SInv.append_fresh {cfg : SCfg} (inv : SInv cfg) (a : Nat) :
    SInv ⟨cfg.handles ++ [(⟨some a, some cfg.world.counters.length⟩ : SRef)],
          { cfg.world with counters := cfg.world.counters ++ [some 1] }⟩ := by
  obtain ⟨hz, hnone⟩ := inv.fresh_cell_facts
  refine ⟨?_, ?_, ?_⟩ <;> dsimp only
  · intro h hm
    rcases List.mem_append.mp hm with hold | hnew
    · exact inv.iffNull h hold
    · simp at hnew; subst hnew; simp
  · intro h hm c hcc
    rw [SWorld.cellAt_append_fresh]
    simp only [List.length_append, List.length_cons, List.length_nil]
    rcases List.mem_append.mp hm with hold | hnew
    · obtain ⟨hl1, hl2⟩ := inv.aliasLive h hold c hcc
      refine ⟨by omega, ?_⟩
      rw [dif_pos hl1]
      exact hl2
    · simp at hnew; subst hnew
      simp at hcc
      subst hcc
      refine ⟨by omega, ?_⟩
      rw [dif_neg (by omega), if_pos rfl]
      simp
  · intro c v hcell
    rw [SWorld.cellAt_append_fresh] at hcell
    rw [aliasCount_append, aliasCount_singleton]
    by_cases h1 : c < cfg.world.counters.length
    · rw [dif_pos h1] at hcell
      rw [inv.countEq c v hcell]
      have : ¬ ((some cfg.world.counters.length : Option Nat) = some c) := by
        intro hx; cases hx; omega
      simp [this]
    · rw [dif_neg h1] at hcell
      by_cases h2 : c = cfg.world.counters.length
      · subst h2
        rw [if_pos rfl] at hcell
        cases hcell
        simp [hz]
      · rw [if_neg h2] at hcell
        cases hcell

/-- Writing a handle that owns a freshly appended counter cell at value 1
into an empty slot preserves the invariant. -/
theorem SInv.place_fresh {cfg : SCfg} (inv : SInv cfg) (i : Nat)
    (hi : i < cfg.handles.length) (hslot : cfg.hAt i = (⟨none, none⟩ : SRef))
    (a : Nat) :
    SInv ⟨cfg.handles.set i (⟨some a, some cfg.world.counters.length⟩ : SRef),
          { cfg.world with counters := cfg.world.counters ++ [some 1] }⟩ := by
  obtain ⟨hz, hnone⟩ := inv.fresh_cell_facts
  have hgi : (cfg.handles.get ⟨i, hi⟩) = cfg.hAt i := (SCfg.hAt_eq hi).symm
  have hsetgen : ∀ c, aliasCount
      (cfg.handles.set i (⟨some a, some cfg.world.counters.length⟩ : SRef)) c
      = aliasCount cfg.handles c
        + (if cfg.world.counters.length = c then 1 else 0) := by
    intro c
    have hst := aliasCount_set cfg.handles i
      (⟨some a, some cfg.world.counters.length⟩ : SRef) c hi
    rw [hgi, hslot] at hst
    by_cases hx : cfg.world.counters.length = c <;> simp [hx] at hst ⊢ <;> omega
  refine ⟨?_, ?_, ?_⟩ <;> dsimp only
  · intro h hm
    rcases List.mem_or_eq_of_mem_set hm with hold | hnew
    · exact inv.iffNull h hold
    · subst hnew; simp
  · intro h hm c hcc
    rw [SWorld.cellAt_append_fresh]
    simp only [List.length_append, List.length_cons, List.length_nil]
    rcases List.mem_or_eq_of_mem_set hm with hold | hnew
    · obtain ⟨hl1, hl2⟩ := inv.aliasLive h hold c hcc
      refine ⟨by omega, ?_⟩
      rw [dif_pos hl1]
      exact hl2
    · subst hnew
      simp at hcc
      subst hcc
      refine ⟨by omega, ?_⟩
      rw [dif_neg (by omega), if_pos rfl]
      simp
  · intro c v hcell
    rw [SWorld.cellAt_append_fresh] at hcell
    by_cases h1 : c < cfg.world.counters.length
    · rw [dif_pos h1] at hcell
      rw [inv.countEq c v hcell, hsetgen c]
      have hne : cfg.world.counters.length ≠ c := by omega
      simp [hne]
    · rw [dif_neg h1] at hcell
      by_cases h2 : c = cfg.world.counters.length
      · subst h2
        rw [if_pos rfl] at hcell
        cases hcell
        rw [hsetgen _]
        simp [hz]
      · rw [if_neg h2] at hcell
        cases hcell

/-- Move-construction: emptying slot i and appending a handle with its old
members preserves the invariant (no counter mutation). -/
theorem SInv.move_out {cfg : SCfg} (inv : SInv cfg) (i : Nat)
    (hi : i < cfg.handles.length) :
    SInv ⟨(cfg.handles.set i (⟨none, none⟩ : SRef)) ++ [cfg.hAt i], cfg.world⟩ := by
  have hgi : (cfg.handles.get ⟨i, hi⟩) = cfg.hAt i := (SCfg.hAt_eq hi).symm
  have hmem : cfg.hAt i ∈ cfg.handles := SCfg.hAt_mem hi
  refine ⟨?_, ?_, ?_⟩ <;> dsimp only
  · intro h hm
    rcases List.mem_append.mp hm with hset | hnew
    · rcases List.mem_or_eq_of_mem_set hset with hold | hemp
      · exact inv.iffNull h hold
      · subst hemp; simp
    · simp at hnew; subst hnew; exact inv.iffNull _ hmem
  · intro h hm c hcc
    rcases List.mem_append.mp hm with hset | hnew
    · rcases List.mem_or_eq_of_mem_set hset with hold | hemp
      · exact inv.aliasLive h hold c hcc
      · subst hemp; simp at hcc
    · simp at hnew; subst hnew; exact inv.aliasLive _ hmem c hcc
  · intro c v hcell
    rw [inv.countEq c v hcell, aliasCount_append, aliasCount_singleton]
    have hst := aliasCount_set cfg.handles i (⟨none, none⟩ : SRef) c hi
    rw [hgi] at hst
    simp at hst
    omega

/-- Move-assignment transfer phase: an empty slot i takes the members of slot j
and slot j is emptied; no heap effect, counts telescope. -/
theorem SInv.transfer {cfg : SCfg} (inv : SInv cfg) (i j : Nat)
    (hi : i < cfg.handles.length) (hj : j < cfg.handles.length) (hij : i ≠ j)
    (hslot : cfg.hAt i = (⟨none, none⟩ : SRef)) :
    SInv ⟨(cfg.handles.set i (cfg.hAt j)).set j (⟨none, none⟩ : SRef), cfg.world⟩ := by
  have hgi : (cfg.handles.get ⟨i, hi⟩) = cfg.hAt i := (SCfg.hAt_eq hi).symm
  have hgj : (cfg.handles.get ⟨j, hj⟩) = cfg.hAt j := (SCfg.hAt_eq hj).symm
  have hmemj : cfg.hAt j ∈ cfg.handles := SCfg.hAt_mem hj
  have hj2 : j < (cfg.handles.set i (cfg.hAt j)).length := by
    rw [List.length_set]; exact hj
  have hjval : (cfg.handles.set i (cfg.hAt j)).get ⟨j, hj2⟩ = cfg.hAt j := by
    simp only [List.get_eq_getElem]
    rw [List.getElem_set_ne hij]
    unfold SCfg.hAt
    exact (List.getD_eq_getElem _ _ hj).symm
  refine ⟨?_, ?_, ?_⟩ <;> dsimp only
  · intro h hm
    rcases List.mem_or_eq_of_mem_set hm with hset | hemp
    · rcases List.mem_or_eq_of_mem_set hset with hold | hmov
      · exact inv.iffNull h hold
      · subst hmov; exact inv.iffNull _ hmemj
    · subst hemp; simp
  · intro h hm c hcc
    rcases List.mem_or_eq_of_mem_set hm with hset | hemp
    · rcases List.mem_or_eq_of_mem_set hset with hold | hmov
      · exact inv.aliasLive h hold c hcc
      · subst hmov; exact inv.aliasLive _ hmemj c hcc
    · subst hemp; simp at hcc
  · intro c v hcell
    rw [inv.countEq c v hcell]
    have hst1 := aliasCount_set cfg.handles i (cfg.hAt j) c hi
    rw [hgi, hslot] at hst1
    simp at hst1
    have hst2 := countP_set_add (fun h => decide (h.cnt = some c))
      (cfg.handles.set i (cfg.hAt j)) j (⟨none, none⟩ : SRef) hj2
    rw [hjval] at hst2
    simp only [decide_eq_true_eq] at hst2
    have hst2a : aliasCount ((cfg.handles.set i (cfg.hAt j)).set j
        (⟨none, none⟩ : SRef)) c
        + (if (cfg.hAt j).cnt = some c then 1 else 0)
        = aliasCount (cfg.handles.set i (cfg.hAt j)) c
          + (if ((⟨none, none⟩ : SRef) : SRef).cnt = some c then 1 else 0) := hst2
    simp at hst2a
    by_cases hx : (cfg.hAt j).cnt = some c <;> simp [hx] at hst1 hst2a <;> omega

/-- The empty configuration satisfies the invariant. -/
theorem sinv_init : SInv SCfg.init := by
  refine ⟨?_, ?_, ?_⟩
  · intro h hm; simp [SCfg.init] at hm
  · intro h hm; simp [SCfg.init] at hm
  · intro c v hcell; simp [SCfg.init, SWorld.cellAt] at hcell

/-- Every public shared_ref operation preserves the family invariant. -/
theorem sstep_preserves {c c2 : SCfg} (inv : SInv c) (st : SStep c c2) : SInv c2 := by
  cases st with
  | ctorDefault => exact inv.append_empty
  | ctorNew =>
    have inv0 : SInv ⟨c.handles,
        { c.world with pointees := c.world.pointees ++ [true] }⟩ :=
      inv.counters_congr rfl
    exact inv0.append_fresh c.world.pointees.length
  | copyCtor i hi =>
    have hm := SCfg.hAt_mem hi
    have hiff := inv.iffNull _ hm
    have happ := inv.append_copy (c.hAt i) hm
    by_cases hp : (c.hAt i).ptr = none
    · have hcnone : (c.hAt i).cnt = none := hiff.mp hp
      rw [shared_ref.add_owner_none _ _ hcnone] at happ
      simp only [SCfg.doCopyCtor, shared_ref.copyCtor]
      rw [if_pos hp]
      exact happ
    · simp only [SCfg.doCopyCtor, shared_ref.copyCtor]
      rw [if_neg hp]
      exact happ
  | copyAssign i j hi hj hij =>
    have hpi : (c.hAt i).cnt = none → (c.hAt i).ptr = none :=
      fun hn => (inv.iffNull _ (SCfg.hAt_mem hi)).mpr hn
    have inv1 := inv.remove_at i hi (c.hAt i) rfl hpi
    rw [shared_ref.remove_owner_fst _ _ hpi] at inv1
    have hi2 : i < (c.handles.set i (⟨none, none⟩ : SRef)).length := by
      rw [List.length_set]; exact hi
    have hmid_i : (⟨c.handles.set i (⟨none, none⟩ : SRef),
        (shared_ref.remove_owner (c.hAt i) c.world).2⟩ : SCfg).hAt i
        = (⟨none, none⟩ : SRef) := by
      unfold SCfg.hAt
      exact getD_set_self _ _ _ _ hi
    have hmemj : c.hAt j ∈ c.handles.set i (⟨none, none⟩ : SRef) := by
      have hj2 : j < (c.handles.set i (⟨none, none⟩ : SRef)).length := by
        rw [List.length_set]; exact hj
      have : (c.handles.set i (⟨none, none⟩ : SRef))[j] = c.hAt j := by
        rw [List.getElem_set_ne hij]
        unfold SCfg.hAt
        exact (List.getD_eq_getElem _ _ hj).symm
      rw [← this]
      exact List.getElem_mem hj2
    have inv2 := inv1.place_at i hi2 hmid_i (c.hAt j) hmemj
    rw [List.set_set] at inv2
    exact inv2
  | moveCtor i hi => exact inv.move_out i hi
  | moveAssign i j hi hj hij =>
    have hpi : (c.hAt i).cnt = none → (c.hAt i).ptr = none :=
      fun hn => (inv.iffNull _ (SCfg.hAt_mem hi)).mpr hn
    have inv1 := inv.remove_at i hi (c.hAt i) rfl hpi
    rw [shared_ref.remove_owner_fst _ _ hpi] at inv1
    have hi2 : i < (c.handles.set i (⟨none, none⟩ : SRef)).length := by
      rw [List.length_set]; exact hi
    have hj2 : j < (c.handles.set i (⟨none, none⟩ : SRef)).length := by
      rw [List.length_set]; exact hj
    have hmid_i : (⟨c.handles.set i (⟨none, none⟩ : SRef),
        (shared_ref.remove_owner (c.hAt i) c.world).2⟩ : SCfg).hAt i
        = (⟨none, none⟩ : SRef) := by
      unfold SCfg.hAt
      exact getD_set_self _ _ _ _ hi
    have hmid_j : (⟨c.handles.set i (⟨none, none⟩ : SRef),
        (shared_ref.remove_owner (c.hAt i) c.world).2⟩ : SCfg).hAt j
        = c.hAt j := by
      unfold SCfg.hAt
      exact getD_set_ne _ _ _ _ _ hij
    have inv2 := inv1.transfer i j hi2 hj2 hij hmid_i
    rw [hmid_j, List.set_set] at inv2
    exact inv2
  | reset0 i hi =>
    have hpi : (c.hAt i).cnt = none → (c.hAt i).ptr = none :=
      fun hn => (inv.iffNull _ (SCfg.hAt_mem hi)).mpr hn
    exact inv.remove_at i hi (c.hAt i) rfl hpi
  | resetNew i hi =>
    have inv0 : SInv ⟨c.handles,
        { c.world with pointees := c.world.pointees ++ [true] }⟩ :=
      inv.counters_congr rfl
    have hpi : (c.hAt i).cnt = none → (c.hAt i).ptr = none :=
      fun hn => (inv.iffNull _ (SCfg.hAt_mem hi)).mpr hn
    have inv1 := inv0.remove_at i hi (c.hAt i) rfl hpi
    rw [shared_ref.remove_owner_fst _ _ hpi] at inv1
    have hi2 : i < (c.handles.set i (⟨none, none⟩ : SRef)).length := by
      rw [List.length_set]; exact hi
    have hmid_i : (⟨c.handles.set i (⟨none, none⟩ : SRef),
        (shared_ref.remove_owner (c.hAt i)
          { c.world with pointees := c.world.pointees ++ [true] }).2⟩ : SCfg).hAt i
        = (⟨none, none⟩ : SRef) := by
      unfold SCfg.hAt
      exact getD_set_self _ _ _ _ hi
    have inv2 := inv1.place_fresh i hi2 hmid_i c.world.pointees.length
    rw [List.set_set] at inv2
    exact inv2
  | dtor i hi =>
    have inv1 := inv.remove_at i hi (⟨none, (c.hAt i).cnt⟩ : SRef) rfl (fun _ => rfl)
    rw [shared_ref.remove_owner_fst _ _ (fun _ => rfl)] at inv1
    exact inv1

/-- Every configuration reachable through the public shared_ref operations
satisfies the family invariant. -/
theorem sharedInv_reachable {cfg : SCfg} (hr : SReachable cfg) : SInv cfg := by
  induction hr with
  | init => exact sinv_init
  | step hr st ih => exact sstep_preserves ih st

/-- In-bounds observed slots agree with list indexing. -/
theorem OCfg.hAt_getElem {cfg : OCfg} {i : Nat} (hi : i < cfg.handles.length) :
    cfg.hAt i = cfg.handles.get ⟨i, hi⟩ := by
  simp only [OCfg.hAt, List.get_eq_getElem]
  exact List.getD_eq_getElem _ _ hi

/-- In-bounds observed slots hold members of the family. -/
theorem OCfg.hAt_member {cfg : OCfg} {i : Nat} (hi : i < cfg.handles.length) :
    cfg.hAt i ∈ cfg.handles := by
  rw [OCfg.hAt_getElem hi]
  simp only [List.get_eq_getElem]
  exact List.getElem_mem hi

/-- The handle member of an observed _remove_owner result is the input
handle (early return) or the empty handle. -/
theorem observed_ref.remove_owner_result (h : ORef) (w : OWorld) :
    (observed_ref.remove_owner h w).1 = h ∨
      (observed_ref.remove_owner h w).1 = (⟨none, none⟩ : ORef) := by
  obtain ⟨hp, hc⟩ := h
  unfold observed_ref.remove_owner
  cases hp <;> cases hc <;> simp

/-- The per-handle null-pointer null-counter agreement for observed_ref
families. -/
def OIff (cfg : OCfg) : Prop := ∀ h ∈ cfg.handles, h.ptr = none ↔ h.cnt = none

/-- Every public observed_ref operation preserves null-member agreement. -/
theorem ostep_preserves {c c2 : OCfg} (hinv : OIff c) (st : OStep c c2) :
    OIff c2 := by
  cases st with
  | ctorDefault =>
    intro h hm
    rcases List.mem_append.mp hm with hold | hnew
    · exact hinv h hold
    · simp at hnew; subst hnew; simp
  | ctorNew =>
    intro h hm
    rcases List.mem_append.mp hm with hold | hnew
    · exact hinv h hold
    · simp at hnew; subst hnew
      simp [observed_ref.ctorFromPtr, OWorld.allocBlock]
  | copyCtor i hi =>
    intro h hm
    rcases List.mem_append.mp hm with hold | hnew
    · exact hinv h hold
    · simp at hnew; subst hnew; exact hinv _ (OCfg.hAt_member hi)
  | copyAssign i j hi hj hij =>
    intro h hm
    rcases List.mem_or_eq_of_mem_set hm with hold | hnew
    · exact hinv h hold
    · subst hnew; exact hinv _ (OCfg.hAt_member hj)
  | moveCtor i hi =>
    intro h hm
    rcases List.mem_append.mp hm with hset | hnew
    · rcases List.mem_or_eq_of_mem_set hset with hold | hemp
      · exact hinv h hold
      · subst hemp; simp [observed_ref.moveCtor]
    · simp at hnew; subst hnew; exact hinv _ (OCfg.hAt_member hi)
  | moveAssign i j hi hj hij =>
    intro h hm
    rcases List.mem_or_eq_of_mem_set hm with hset | hsrc
    · rcases List.mem_or_eq_of_mem_set hset with hold | hmov
      · exact hinv h hold
      · subst hmov; exact hinv _ (OCfg.hAt_member hj)
    · rw [hsrc]
      unfold observed_ref.moveAssign
      dsimp only
      rcases observed_ref.remove_owner_result (c.hAt i) c.world with hfst | hfst
      · rw [hfst]; exact hinv _ (OCfg.hAt_member hi)
      · rw [hfst]
  | reset0 i hi =>
    intro h hm
    rcases List.mem_or_eq_of_mem_set hm with hold | hnew
    · exact hinv h hold
    · rcases observed_ref.remove_owner_result (c.hAt i) c.world with hfst | hfst
      · rw [hnew]
        show ((observed_ref.reset (c.hAt i) none c.world).1.ptr = none
          ↔ (observed_ref.reset (c.hAt i) none c.world).1.cnt = none)
        unfold observed_ref.reset
        rw [hfst]
        exact hinv _ (OCfg.hAt_member hi)
      · rw [hnew]
        show ((observed_ref.reset (c.hAt i) none c.world).1.ptr = none
          ↔ (observed_ref.reset (c.hAt i) none c.world).1.cnt = none)
        unfold observed_ref.reset
        rw [hfst]
  | resetNew i hi =>
    intro h hm
    rcases List.mem_or_eq_of_mem_set hm with hold | hnew
    · exact hinv h hold
    · subst hnew
      simp [observed_ref.reset, OWorld.allocBlock]
  | dtor i hi =>
    intro h hm
    rcases List.mem_or_eq_of_mem_set hm with hold | hnew
    · exact hinv h hold
    · subst hnew; simp

/-- Every configuration reachable through the public observed_ref
operations satisfies null-member agreement. -/
theorem observedIff_reachable {cfg : OCfg} (hr : OReachable cfg) : OIff cfg := by
  induction hr with
  | init => intro h hm; simp [OCfg.init] at hm
  | step hr st ih => exact ostep_preserves ih st

end xen

namespace xen

/-- Overflow-guarded operations stay within the representable range. -/
theorem safe_u64.mod_le_max (x : Nat) : x % 2 ^ 64 ≤ U64_MAX := by
  have := Nat.mod_lt x (show 0 < 2 ^ 64 by norm_num)
  unfold U64_MAX
  omega

/-- Numeral form of the representable-range bound. -/
theorem safe_u64.mod_le_max2 (x : Nat) : x % 18446744073709551616 ≤ U64_MAX := by
  have := safe_u64.mod_le_max x
  norm_num at this ⊢
  exact this

/-- C4: for 64-bit magnitudes a and b, when a + b is representable the
checked addition stores and returns exactly a + b; when it is not, the
addition fails with NumOverflow leaving the magnitude untouched; and the
overflow test, written a less-or-equal U64_MAX minus b, is exactly the
no-overflow condition, decided without computing a wrapped sum. -/
theorem C4_checked_addition (a b : Nat) (ha : a ≤ U64_MAX) (hb : b ≤ U64_MAX) :
    (a + b ≤ U64_MAX →
      safe_u64.addAssign_u64 a b = (a + b, Except.ok (a + b))
      ∧ safe_u64.add_u64 a b = Except.ok (a + b))
    ∧ (U64_MAX < a + b →
      safe_u64.addAssign_u64 a b = (a, Except.error err.NumOverflow)
      ∧ safe_u64.add_u64 a b = Except.error err.NumOverflow)
    ∧ (safe_u64.is_safe_add_u64 a b = true ↔ a + b ≤ U64_MAX) := by
  have hiff : safe_u64.is_safe_add_u64 a b = true ↔ a + b ≤ U64_MAX := by
    unfold safe_u64.is_safe_add_u64 U64_MAX
    unfold U64_MAX at hb
    simp only [decide_eq_true_eq]
    omega
  refine ⟨?_, ?_, hiff⟩
  · intro hle
    have hsafe : safe_u64.is_safe_add_u64 a b = true := hiff.mpr hle
    have hlt : a + b < 2 ^ 64 := by unfold U64_MAX at hle; omega
    have hmod : (a + b) % 2 ^ 64 = a + b := Nat.mod_eq_of_lt hlt
    have haa : safe_u64.addAssign_u64 a b = (a + b, Except.ok (a + b)) := by
      unfold safe_u64.addAssign_u64
      simp [hsafe, hmod] <;> omega
    refine ⟨haa, ?_⟩
    unfold safe_u64.add_u64
    rw [haa]
    rfl
  · intro hgt
    have hsafe : ¬ safe_u64.is_safe_add_u64 a b = true := by
      rw [hiff]; omega
    have haa : safe_u64.addAssign_u64 a b = (a, Except.error err.NumOverflow) := by
      unfold safe_u64.addAssign_u64
      simp [hsafe]
    refine ⟨haa, ?_⟩
    unfold safe_u64.add_u64
    rw [haa]
    rfl

/-- Witness: the checked addition theorem applied at 3 + 4 and at
U64_MAX + 1. -/
theorem C4_checked_addition_witness :
    safe_u64.add_u64 3 4 = Except.ok 7
    ∧ safe_u64.add_u64 U64_MAX 1 = Except.error err.NumOverflow := by
  refine ⟨((C4_checked_addition 3 4 (by decide) (by decide)).1 (by decide)).2, ?_⟩
  exact ((C4_checked_addition U64_MAX 1 (by decide) (by decide)).2.1 (by decide)).2

/-- C5: increment fails with NumOverflow exactly at U64_MAX, decrement
fails with NumUnderflow exactly at zero, division fails with DivideByZero
exactly for a zero divisor, and otherwise increment and decrement adjust by
exactly one, returning the new value (prefix) or the old value (postfix). -/
theorem C5_inc_dec_div_errors (s : Nat) (hs : s ≤ U64_MAX) :
    ((safe_u64.preIncrement s).2 = Except.error err.NumOverflow ↔ s = U64_MAX)
    ∧ ((safe_u64.postIncrement s).2 = Except.error err.NumOverflow ↔ s = U64_MAX)
    ∧ (s ≠ U64_MAX → safe_u64.preIncrement s = (s + 1, Except.ok (s + 1))
        ∧ safe_u64.postIncrement s = (s + 1, Except.ok s))
    ∧ ((safe_u64.preDecrement s).2 = Except.error err.NumUnderflow ↔ s = 0)
    ∧ ((safe_u64.postDecrement s).2 = Except.error err.NumUnderflow ↔ s = 0)
    ∧ (s ≠ 0 → safe_u64.preDecrement s = (s - 1, Except.ok (s - 1))
        ∧ safe_u64.postDecrement s = (s - 1, Except.ok s))
    ∧ (∀ d : Nat,
        (safe_u64.divAssign_u64 s d).2 = Except.error err.DivideByZero ↔ d = 0) := by
  have hsucc : ∀ hne : s ≠ U64_MAX,
      safe_u64.preIncrement s = (s + 1, Except.ok (s + 1)) := by
    intro hne
    have hlt : s + 1 < 2 ^ 64 := by unfold U64_MAX at hs hne; omega
    unfold safe_u64.preIncrement
    rw [if_neg hne, Nat.mod_eq_of_lt hlt]
  have hdec : ∀ hne : s ≠ 0,
      safe_u64.preDecrement s = (s - 1, Except.ok (s - 1)) := by
    intro hne
    unfold safe_u64.preDecrement U64_MIN
    rw [if_neg hne]
  refine ⟨?_, ?_, ?_, ?_, ?_, ?_, ?_⟩
  · constructor
    · intro he
      by_contra hne
      rw [hsucc hne] at he
      cases he
    · intro he; subst he; rfl
  · constructor
    · intro he
      by_contra hne
      unfold safe_u64.postIncrement at he
      rw [hsucc hne] at he
      cases he
    · intro he; subst he; rfl
  · intro hne
    refine ⟨hsucc hne, ?_⟩
    unfold safe_u64.postIncrement
    rw [hsucc hne]
  · constructor
    · intro he
      by_contra hne
      rw [hdec hne] at he
      cases he
    · intro he; subst he; rfl
  · constructor
    · intro he
      by_contra hne
      unfold safe_u64.postDecrement at he
      rw [hdec hne] at he
      cases he
    · intro he; subst he; rfl
  · intro hne
    refine ⟨hdec hne, ?_⟩
    unfold safe_u64.postDecrement
    rw [hdec hne]
  · intro d
    unfold safe_u64.divAssign_u64
    constructor
    · intro he
      by_contra hne
      rw [if_neg hne] at he
      cases he
    · intro he; subst he; rfl

/-- Witness: the increment, decrement and division error conditions at
magnitude 5, at the extremes, and at divisor 0 and 2. -/
theorem C5_inc_dec_div_errors_witness :
    safe_u64.preIncrement 5 = (6, Except.ok 6)
    ∧ safe_u64.postDecrement 5 = (4, Except.ok 5)
    ∧ ((safe_u64.preIncrement U64_MAX).2 = Except.error err.NumOverflow)
    ∧ ((safe_u64.preDecrement 0).2 = Except.error err.NumUnderflow)
    ∧ ((safe_u64.divAssign_u64 5 0).2 = Except.error err.DivideByZero)
    ∧ ¬ ((safe_u64.divAssign_u64 5 2).2 = Except.error err.DivideByZero) := by
  refine ⟨((C5_inc_dec_div_errors 5 (by decide)).2.2.1 (by decide)).1,
    ((C5_inc_dec_div_errors 5 (by decide)).2.2.2.2.2.1 (by decide)).2,
    (C5_inc_dec_div_errors U64_MAX (by decide)).1.mpr rfl,
    (C5_inc_dec_div_errors 0 (by decide)).2.2.2.1.mpr rfl,
    ((C5_inc_dec_div_errors 5 (by decide)).2.2.2.2.2.2 0).mpr rfl,
    ?_⟩
  intro hx
  exact absurd (((C5_inc_dec_div_errors 5 (by decide)).2.2.2.2.2.2 2).mp hx) (by decide)

/-- C6 counterexample: dividing the magnitude 5 by the signed value minus
one does not fail with DivideByZero; the divisor undergoes the standard
integral conversion to 2 to the 64 minus 1 and the division succeeds with
quotient 0, because src/core/safe_u64.hpp has no signed division
overload. -/
theorem C6_counterexample :
    (safe_u64.div_i32_converted 5 (-1)).2 = Except.ok 0
    ∧ safe_u64.u64_of_i32 (-1) = U64_MAX
    ∧ (safe_u64.div_i32_converted 5 (-1)).2 ≠ Except.error err.DivideByZero := by
  refine ⟨rfl, rfl, ?_⟩
  intro hx
  rw [show (safe_u64.div_i32_converted 5 (-1)).2 = Except.ok 0 from rfl] at hx
  cases hx

/-- C6 amended: multiplying by a negative signed operand fails with
NumOverflow in both operand orders; dividing by a negative signed operand
is not rejected: the divisor converts modulo 2 to the 64 to a nonzero
magnitude of at least 2 to the 63, so the division succeeds with the
corresponding quotient, and DivideByZero is raised only for divisor
zero. -/
theorem C6_signed_mul_div_policy (v : Nat) (n : Int) (hlo : -(2 ^ 31) ≤ n)
    (hn : n < 0) :
    safe_u64.mulAssign_i32 v n = (v, Except.error err.NumOverflow)
    ∧ safe_u64.mul_i32_left n v = Except.error err.NumOverflow
    ∧ safe_u64.u64_of_i32 n ≠ 0
    ∧ (safe_u64.div_i32_converted v n).2
        = Except.ok (v / safe_u64.u64_of_i32 n) := by
  have hnz : safe_u64.u64_of_i32 n ≠ 0 := by
    unfold safe_u64.u64_of_i32
    omega
  refine ⟨?_, ?_, hnz, ?_⟩
  · unfold safe_u64.mulAssign_i32
    rw [if_pos hn]
  · unfold safe_u64.mul_i32_left
    rw [if_pos hn]
  · unfold safe_u64.div_i32_converted safe_u64.divAssign_u64
    rw [if_neg hnz]

/-- Witness: the amended signed-operand policy at magnitude 7 and operand
minus 3. -/
theorem C6_signed_mul_div_policy_witness :
    safe_u64.mulAssign_i32 7 (-3) = (7, Except.error err.NumOverflow)
    ∧ (safe_u64.div_i32_converted 7 (-3)).2 = Except.ok 0 := by
  refine ⟨(C6_signed_mul_div_policy 7 (-3) (by decide) (by decide)).1, ?_⟩
  have h := (C6_signed_mul_div_policy 7 (-3) (by decide) (by decide)).2.2.2
  rw [h]
  rfl

/-- Postfix increment mutates exactly as the prefix increment does. -/
theorem safe_u64.postIncrement_fst (s : Nat) :
    (safe_u64.postIncrement s).1 = (safe_u64.preIncrement s).1 := by
  rcases h : safe_u64.preIncrement s with ⟨s2, r⟩
  unfold safe_u64.postIncrement
  rw [h]
  cases r <;> rfl

/-- Postfix increment propagates exactly the prefix increment errors. -/
theorem safe_u64.postIncrement_err (s : Nat) (e : err)
    (he : (safe_u64.postIncrement s).2 = Except.error e) :
    (safe_u64.preIncrement s).2 = Except.error e := by
  rcases h : safe_u64.preIncrement s with ⟨s2, r⟩
  unfold safe_u64.postIncrement at he
  rw [h] at he
  cases r with
  | ok v => cases he
  | error e2 =>
    simp only [Except.error.injEq] at he
    rw [he]

/-- Postfix decrement mutates exactly as the prefix decrement does. -/
theorem safe_u64.postDecrement_fst (s : Nat) :
    (safe_u64.postDecrement s).1 = (safe_u64.preDecrement s).1 := by
  rcases h : safe_u64.preDecrement s with ⟨s2, r⟩
  unfold safe_u64.postDecrement
  rw [h]
  cases r <;> rfl

/-- Postfix decrement propagates exactly the prefix decrement errors. -/
theorem safe_u64.postDecrement_err (s : Nat) (e : err)
    (he : (safe_u64.postDecrement s).2 = Except.error e) :
    (safe_u64.preDecrement s).2 = Except.error e := by
  rcases h : safe_u64.preDecrement s with ⟨s2, r⟩
  unfold safe_u64.postDecrement at he
  rw [h] at he
  cases r with
  | ok v => cases he
  | error e2 =>
    simp only [Except.error.injEq] at he
    rw [he]

/-- C7: every mutating safe_u64 operation, in every overload, either
completes with a representable new magnitude or fails leaving the stored
magnitude exactly as it was before the call. -/
theorem C7_fail_no_mutation (s rhs : Nat) (z : Int) (e : err) (hs : s ≤ U64_MAX) :
    ((safe_u64.preIncrement s).2 = Except.error e → (safe_u64.preIncrement s).1 = s)
    ∧ ((safe_u64.postIncrement s).2 = Except.error e → (safe_u64.postIncrement s).1 = s)
    ∧ ((safe_u64.preDecrement s).2 = Except.error e → (safe_u64.preDecrement s).1 = s)
    ∧ ((safe_u64.postDecrement s).2 = Except.error e → (safe_u64.postDecrement s).1 = s)
    ∧ ((safe_u64.addAssign_u64 s rhs).2 = Except.error e → (safe_u64.addAssign_u64 s rhs).1 = s)
    ∧ ((safe_u64.subAssign_u64 s rhs).2 = Except.error e → (safe_u64.subAssign_u64 s rhs).1 = s)
    ∧ ((safe_u64.mulAssign_u64 s rhs).2 = Except.error e → (safe_u64.mulAssign_u64 s rhs).1 = s)
    ∧ ((safe_u64.divAssign_u64 s rhs).2 = Except.error e → (safe_u64.divAssign_u64 s rhs).1 = s)
    ∧ ((safe_u64.addAssign_i32 s z).2 = Except.error e → (safe_u64.addAssign_i32 s z).1 = s)
    ∧ ((safe_u64.subAssign_i32 s z).2 = Except.error e → (safe_u64.subAssign_i32 s z).1 = s)
    ∧ ((safe_u64.mulAssign_i32 s z).2 = Except.error e → (safe_u64.mulAssign_i32 s z).1 = s)
    ∧ ((safe_u64.preIncrement s).1 ≤ U64_MAX)
    ∧ ((safe_u64.postIncrement s).1 ≤ U64_MAX)
    ∧ ((safe_u64.preDecrement s).1 ≤ U64_MAX)
    ∧ ((safe_u64.postDecrement s).1 ≤ U64_MAX)
    ∧ ((safe_u64.addAssign_u64 s rhs).1 ≤ U64_MAX)
    ∧ ((safe_u64.subAssign_u64 s rhs).1 ≤ U64_MAX)
    ∧ ((safe_u64.mulAssign_u64 s rhs).1 ≤ U64_MAX)
    ∧ ((safe_u64.divAssign_u64 s rhs).1 ≤ U64_MAX)
    ∧ ((safe_u64.addAssign_i32 s z).1 ≤ U64_MAX)
    ∧ ((safe_u64.subAssign_i32 s z).1 ≤ U64_MAX)
    ∧ ((safe_u64.mulAssign_i32 s z).1 ≤ U64_MAX) := by
  have hdivle : s / rhs ≤ s := Nat.div_le_self s rhs
  have hpre1 : (safe_u64.preIncrement s).2 = Except.error e
      → (safe_u64.preIncrement s).1 = s := by
    intro he
    unfold safe_u64.preIncrement at he ⊢
    by_cases h : s = U64_MAX <;> simp [h] at he ⊢
  have hpred : (safe_u64.preDecrement s).2 = Except.error e
      → (safe_u64.preDecrement s).1 = s := by
    intro he
    unfold safe_u64.preDecrement at he ⊢
    by_cases h : s = 0 <;> simp [U64_MIN, h] at he ⊢
  refine ⟨hpre1, ?_, hpred, ?_, ?_, ?_, ?_, ?_, ?_, ?_, ?_, ?_, ?_, ?_, ?_, ?_, ?_,
    ?_, ?_, ?_, ?_, ?_⟩
  · intro he
    rw [safe_u64.postIncrement_fst]
    exact hpre1 (safe_u64.postIncrement_err s e he)
  · intro he
    rw [safe_u64.postDecrement_fst]
    exact hpred (safe_u64.postDecrement_err s e he)
  · intro he
    unfold safe_u64.addAssign_u64 at he ⊢
    by_cases h : safe_u64.is_safe_add_u64 s rhs <;> simp [h] at he ⊢
  · intro he
    unfold safe_u64.subAssign_u64 at he ⊢
    by_cases h : safe_u64.is_safe_sub_u64 s rhs <;> simp [h] at he ⊢
  · intro he
    unfold safe_u64.mulAssign_u64 at he ⊢
    by_cases h : safe_u64.is_safe_mul_u64 s rhs <;> simp [h] at he ⊢
  · intro he
    unfold safe_u64.divAssign_u64 at he ⊢
    by_cases h : rhs = 0 <;> simp [h] at he ⊢
  · intro he
    unfold safe_u64.addAssign_i32 at he ⊢
    by_cases hz0 : z < 0
    · by_cases h : safe_u64.is_safe_sub_u64 s (-z).toNat <;> simp [hz0, h] at he ⊢
    · by_cases h : safe_u64.is_safe_add_u64 s z.toNat <;> simp [hz0, h] at he ⊢
  · intro he
    unfold safe_u64.subAssign_i32 at he ⊢
    by_cases hz0 : z < 0
    · by_cases h : safe_u64.is_safe_add_u64 s (-z).toNat <;> simp [hz0, h] at he ⊢
    · by_cases h : safe_u64.is_safe_sub_u64 s z.toNat <;> simp [hz0, h] at he ⊢
  · intro he
    unfold safe_u64.mulAssign_i32 safe_u64.mulAssign_u64 at he ⊢
    by_cases hz0 : z < 0
    · simp [hz0] at he ⊢
    · by_cases h : safe_u64.is_safe_mul_u64 s z.toNat <;> simp [hz0, h] at he ⊢
  · unfold safe_u64.preIncrement
    have hb := safe_u64.mod_le_max (s + 1)
    by_cases h : s = U64_MAX <;> simp [h, hs] <;> simp [U64_MAX] at hb ⊢ <;> omega
  · rw [safe_u64.postIncrement_fst]
    unfold safe_u64.preIncrement
    have hb := safe_u64.mod_le_max (s + 1)
    by_cases h : s = U64_MAX <;> simp [h, hs] <;> simp [U64_MAX] at hb ⊢ <;> omega
  · unfold safe_u64.preDecrement
    by_cases h : s = 0 <;> simp [U64_MIN, h, hs] <;> omega
  · rw [safe_u64.postDecrement_fst]
    unfold safe_u64.preDecrement
    by_cases h : s = 0 <;> simp [U64_MIN, h, hs] <;> omega
  · unfold safe_u64.addAssign_u64
    by_cases h : safe_u64.is_safe_add_u64 s rhs <;>
      simp [h, hs, safe_u64.mod_le_max, safe_u64.mod_le_max2]
  · unfold safe_u64.subAssign_u64
    by_cases h : safe_u64.is_safe_sub_u64 s rhs <;> simp [h, hs] <;> omega
  · unfold safe_u64.mulAssign_u64
    by_cases h : safe_u64.is_safe_mul_u64 s rhs <;>
      simp [h, hs, safe_u64.mod_le_max, safe_u64.mod_le_max2]
  · unfold safe_u64.divAssign_u64
    by_cases h : rhs = 0 <;> simp [h, hs] <;> omega
  · unfold safe_u64.addAssign_i32
    by_cases hz0 : z < 0
    · by_cases h : safe_u64.is_safe_sub_u64 s (-z).toNat <;>
        simp [hz0, h, hs, safe_u64.mod_le_max, safe_u64.mod_le_max2] <;> omega
    · by_cases h : safe_u64.is_safe_add_u64 s z.toNat <;>
        simp [hz0, h, hs, safe_u64.mod_le_max, safe_u64.mod_le_max2]
  · unfold safe_u64.subAssign_i32
    by_cases hz0 : z < 0
    · by_cases h : safe_u64.is_safe_add_u64 s (-z).toNat <;>
        simp [hz0, h, hs, safe_u64.mod_le_max, safe_u64.mod_le_max2]
    · by_cases h : safe_u64.is_safe_sub_u64 s z.toNat <;>
        simp [hz0, h, hs, safe_u64.mod_le_max, safe_u64.mod_le_max2] <;> omega
  · unfold safe_u64.mulAssign_i32 safe_u64.mulAssign_u64
    by_cases hz0 : z < 0
    · simp [hz0, hs]
    · by_cases h : safe_u64.is_safe_mul_u64 s z.toNat <;>
        simp [hz0, h, hs, safe_u64.mod_le_max, safe_u64.mod_le_max2]

/-- Witness: failed operations at the boundary magnitudes leave the stored
magnitude untouched. -/
theorem C7_fail_no_mutation_witness :
    (safe_u64.preIncrement U64_MAX).1 = U64_MAX
    ∧ (safe_u64.preDecrement 0).1 = 0
    ∧ (safe_u64.divAssign_u64 5 0).1 = 5
    ∧ (safe_u64.mulAssign_i32 7 (-2)).1 = 7 := by
  refine ⟨(C7_fail_no_mutation U64_MAX 0 0 err.NumOverflow (by decide)).1 rfl,
    (C7_fail_no_mutation 0 0 0 err.NumUnderflow (by decide)).2.2.1 rfl,
    (C7_fail_no_mutation 5 0 0 err.DivideByZero (by decide)).2.2.2.2.2.2.2.1 rfl,
    (C7_fail_no_mutation 7 0 (-2) err.NumOverflow (by decide)).2.2.2.2.2.2.2.2.2.2.1 rfl⟩

/-- C1: evidence of the destructor defect.  Over a world holding one live
pointee at address 0 and one counter cell at value 1, destroying the sole
owning handle frees the counter cell but not the pointee, because the
destructor nulls _ptr before _remove_owner runs, making delete _ptr a
no-op; reset(nullptr) on the same state frees both.  So destruction is not
equivalent to reset(nullptr), against the documented intent. -/
theorem C1_destructor_leaks_pointee :
    shared_ref.dtor (⟨some 0, some 0⟩ : SRef) (⟨[true], [], [some 1], []⟩ : SWorld)
      = (⟨[true], [], [none], [0]⟩ : SWorld)
    ∧ ((shared_ref.reset (⟨some 0, some 0⟩ : SRef) none
        (⟨[true], [], [some 1], []⟩ : SWorld)).2
      = (⟨[false], [0], [none], [0]⟩ : SWorld))
    ∧ (shared_ref.dtor (⟨some 0, some 0⟩ : SRef)
        (⟨[true], [], [some 1], []⟩ : SWorld)).ptrFreeLog = []
    ∧ shared_ref.dtor (⟨some 0, some 0⟩ : SRef) (⟨[true], [], [some 1], []⟩ : SWorld)
      ≠ (shared_ref.reset (⟨some 0, some 0⟩ : SRef) none
        (⟨[true], [], [some 1], []⟩ : SWorld)).2 := by
  refine ⟨rfl, rfl, rfl, ?_⟩
  decide

/-- C2: the shared counter invariant.  In every configuration reachable
through the public shared_ref operations, every live counter cell holds
exactly the number of live handles aliasing it; an empty handle reports
count 0; copies alias the very same counter cell and pointer; and in the
concrete construct-copy-drop scenario the counts read 2, 2 and then 1. -/
theorem C2_shared_count_invariant :
    (∀ cfg : SCfg, SReachable cfg → ∀ c v, cfg.world.cellAt c = some v →
      v = aliasCount cfg.handles c)
    ∧ (∀ (h : SRef) (w : SWorld), h.cnt = none →
      shared_ref.get_shared_ref_count h w = 0)
    ∧ (∀ (o : SRef) (w : SWorld), (shared_ref.copyCtor o w).1.cnt = o.cnt
      ∧ (shared_ref.copyCtor o w).1.ptr = o.ptr)
    ∧ shared_ref.get_shared_ref_count ((SCfg.init.doCtorNew.doCopyCtor 0).hAt 0)
        (SCfg.init.doCtorNew.doCopyCtor 0).world = 2
    ∧ shared_ref.get_shared_ref_count ((SCfg.init.doCtorNew.doCopyCtor 0).hAt 1)
        (SCfg.init.doCtorNew.doCopyCtor 0).world = 2
    ∧ shared_ref.get_shared_ref_count
        (((SCfg.init.doCtorNew.doCopyCtor 0).doDtor 0).hAt 1)
        ((SCfg.init.doCtorNew.doCopyCtor 0).doDtor 0).world = 1 := by
  refine ⟨?_, ?_, ?_, rfl, rfl, rfl⟩
  · intro cfg hr c v hcell
    exact (sharedInv_reachable hr).countEq c v hcell
  · intro h w hc
    unfold shared_ref.get_shared_ref_count
    rw [hc]
  · intro o w
    unfold shared_ref.copyCtor
    by_cases h : o.ptr = none <;> simp [h]

/-- Witness: the counter invariant read off the concrete reachable
two-handle configuration, where cell 0 holds 2. -/
theorem C2_shared_count_invariant_witness :
    (2 : Nat) = aliasCount (SCfg.init.doCtorNew.doCopyCtor 0).handles 0
    ∧ shared_ref.get_shared_ref_count (⟨some 7, none⟩ : SRef)
        (⟨[], [], [], []⟩ : SWorld) = 0 := by
  have h0 : SReachable SCfg.init := SReachable.init
  have h1 : SReachable SCfg.init.doCtorNew := SReachable.step h0 (SStep.ctorNew _)
  have h2 : SReachable (SCfg.init.doCtorNew.doCopyCtor 0) :=
    SReachable.step h1 (SStep.copyCtor _ 0 (by decide))
  exact ⟨(C2_shared_count_invariant.1 _ h2 0 2 (by decide)),
    C2_shared_count_invariant.2.1 _ _ rfl⟩

/-- Computation law: observed _remove_owner over a live block decrements
the strong count, deletes the pointee exactly when the decremented strong
count is zero, and deletes the block exactly when additionally the weak
count is zero. -/
theorem observed_ref.remove_owner_live (p c s wk : Nat) (w : OWorld)
    (hv : w.blockAt c = some (⟨s, wk⟩ : ref_counter_t)) :
    observed_ref.remove_owner (⟨some p, some c⟩ : ORef) w =
      ((⟨none, none⟩ : ORef),
        if s - 1 = 0 ∧ wk = 0 then
          ((w.writeBlock c ⟨s - 1, wk⟩).deletePointee (some p)).deleteBlock c
        else if s - 1 = 0 then
          (w.writeBlock c ⟨s - 1, wk⟩).deletePointee (some p)
        else w.writeBlock c ⟨s - 1, wk⟩) := by
  unfold observed_ref.remove_owner
  simp only [hv, Option.getD_some, ref_counter_t.dec_strong_ref,
    ref_counter_t.has_no_strong_ref, ref_counter_t.has_no_reference,
    ref_counter_t.get_total_count, decide_eq_true_eq]
  by_cases h0 : s - 1 = 0 <;> by_cases hw : wk = 0 <;>
    simp [h0, hw, Nat.add_eq_zero]

/-- C3: the observed_ref counter-block lifecycle.  A fresh construction
allocates a block at strong 1, weak 0; removing an owner decrements the
strong count; the pointee is freed exactly when the strong count reaches
zero; the block is freed only when the strong and weak counts are both
zero, so it outlives the pointee while weak references remain; and both
the destructor and reset(nullptr) release ownership through exactly this
routine. -/
theorem C3_observed_counter_lifecycle (w : OWorld) (a p c s wk : Nat)
    (hv : w.blockAt c = some (⟨s, wk⟩ : ref_counter_t)) :
    ((observed_ref.ctorFromPtr (some a) w).1 = (⟨some a, some w.blocks.length⟩ : ORef)
      ∧ (observed_ref.ctorFromPtr (some a) w).2.blockAt w.blocks.length
          = some ref_counter_t.init
      ∧ ref_counter_t.init.get_strong_count = 1
      ∧ ref_counter_t.init.get_weak_count = 0)
    ∧ ((observed_ref.remove_owner (⟨some p, some c⟩ : ORef) w).2.ptrFreeLog
        = if s - 1 = 0 then p :: w.ptrFreeLog else w.ptrFreeLog)
    ∧ ((observed_ref.remove_owner (⟨some p, some c⟩ : ORef) w).2.blockFreeLog
        = if s - 1 = 0 ∧ wk = 0 then c :: w.blockFreeLog else w.blockFreeLog)
    ∧ (¬ (s - 1 = 0 ∧ wk = 0) →
        (observed_ref.remove_owner (⟨some p, some c⟩ : ORef) w).2.blockAt c
          = some (⟨s - 1, wk⟩ : ref_counter_t))
    ∧ ((s - 1 = 0 ∧ wk = 0) →
        (observed_ref.remove_owner (⟨some p, some c⟩ : ORef) w).2.blockAt c = none)
    ∧ (∀ h : ORef, observed_ref.dtor h w = (observed_ref.remove_owner h w).2)
    ∧ (observed_ref.reset (⟨some p, some c⟩ : ORef) none w
        = observed_ref.remove_owner (⟨some p, some c⟩ : ORef) w) := by
  have hlt : c < w.blocks.length := getD_some_lt _ _ _ hv
  have hcomp := observed_ref.remove_owner_live p c s wk w hv
  refine ⟨⟨rfl, ?_, rfl, rfl⟩, ?_, ?_, ?_, ?_, fun h => rfl, ?_⟩
  · unfold observed_ref.ctorFromPtr OWorld.allocBlock OWorld.blockAt
    exact getD_append_self _ _ _
  · rw [hcomp]
    by_cases h0 : s - 1 = 0 <;> by_cases hw : wk = 0 <;>
      simp [h0, hw, OWorld.deleteBlock, OWorld.deletePointee, OWorld.writeBlock]
  · rw [hcomp]
    by_cases h0 : s - 1 = 0 <;> by_cases hw : wk = 0 <;>
      simp [h0, hw, OWorld.deleteBlock, OWorld.deletePointee, OWorld.writeBlock]
  · intro hno
    rw [hcomp]
    simp only [if_neg hno]
    by_cases h0 : s - 1 = 0
    · have hw : ¬ wk = 0 := fun hw => hno ⟨h0, hw⟩
      rw [if_pos h0]
      unfold OWorld.blockAt OWorld.deletePointee OWorld.writeBlock
      simp only
      exact getD_set_self _ _ _ _ hlt
    · rw [if_neg h0]
      unfold OWorld.blockAt OWorld.writeBlock
      simp only
      exact getD_set_self _ _ _ _ hlt
  · intro hyes
    rw [hcomp]
    simp only [if_pos hyes]
    unfold OWorld.blockAt OWorld.deleteBlock OWorld.deletePointee OWorld.writeBlock
    simp only
    exact getD_set_self _ _ _ _ (by simpa using hlt)
  · unfold observed_ref.reset
    rw [hcomp]

/-- Witness: the block lifecycle at strong 1, weak 1: dropping the only
owner frees the pointee but keeps the block alive at strong 0, weak 1. -/
theorem C3_observed_counter_lifecycle_witness :
    (observed_ref.remove_owner (⟨some 0, some 0⟩ : ORef)
        (⟨[true], [], [some ⟨1, 1⟩], []⟩ : OWorld)).2.ptrFreeLog = [0]
    ∧ (observed_ref.remove_owner (⟨some 0, some 0⟩ : ORef)
        (⟨[true], [], [some ⟨1, 1⟩], []⟩ : OWorld)).2.blockFreeLog = []
    ∧ (observed_ref.remove_owner (⟨some 0, some 0⟩ : ORef)
        (⟨[true], [], [some ⟨1, 1⟩], []⟩ : OWorld)).2.blockAt 0
        = some (⟨0, 1⟩ : ref_counter_t) := by
  have h := C3_observed_counter_lifecycle
    (⟨[true], [], [some ⟨1, 1⟩], []⟩ : OWorld) 0 0 0 1 1 rfl
  refine ⟨?_, ?_, ?_⟩
  · rw [h.2.1]; rfl
  · rw [h.2.2.1]; rfl
  · have := h.2.2.2.1 (by decide)
    simpa using this

/-- A shared _remove_owner touches no counter cell other than its own. -/
theorem shared_ref.remove_owner_cellAt_other (t : SRef) (w : SWorld) (c : Nat)
    (hne : ∀ c2, t.cnt = some c2 → c2 ≠ c) :
    ((shared_ref.remove_owner t w).2).cellAt c = w.cellAt c := by
  obtain ⟨tp, tc⟩ := t
  cases tc with
  | none => rw [shared_ref.remove_owner_none _ _ rfl]
  | some c2 =>
    have hcc : c2 ≠ c := hne c2 rfl
    unfold shared_ref.remove_owner
    simp only
    by_cases h0 : (w.cellAt c2).getD 0 - 1 = 0
    · rw [if_pos h0]
      simp only
      rw [SWorld.cellAt_deleteCounter_ne _ _ _ hcc, SWorld.cellAt_deletePointee]
      exact SWorld.cellAt_writeCounter_ne _ _ _ _ hcc
    · rw [if_neg h0]
      simp only
      exact SWorld.cellAt_writeCounter_ne _ _ _ _ hcc

/-- Reading another block after a write. -/
theorem OWorld.blockAt_writeBlock_ne (w : OWorld) (c : Nat) (r : ref_counter_t)
    (c2 : Nat) (h : c ≠ c2) : (w.writeBlock c r).blockAt c2 = w.blockAt c2 :=
  getD_set_ne _ _ _ _ _ h

/-- Reading another block after a delete. -/
theorem OWorld.blockAt_deleteBlock_ne (w : OWorld) (c c2 : Nat) (h : c ≠ c2) :
    (w.deleteBlock c).blockAt c2 = w.blockAt c2 :=
  getD_set_ne _ _ _ _ _ h

/-- Pointee deletes do not move blocks. -/
theorem OWorld.blockAt_deletePointee (w : OWorld) (p : Option Nat) (c : Nat) :
    (w.deletePointee p).blockAt c = w.blockAt c := by
  cases p <;> rfl

/-- An observed _remove_owner touches no block other than its own. -/
theorem observed_ref.remove_owner_blockAt_other (t : ORef) (w : OWorld) (c : Nat)
    (hne : ∀ c2, t.cnt = some c2 → c2 ≠ c) :
    ((observed_ref.remove_owner t w).2).blockAt c = w.blockAt c := by
  obtain ⟨tp, tc⟩ := t
  cases tp with
  | none => rfl
  | some p =>
    cases tc with
    | none => rfl
    | some c2 =>
      have hcc : c2 ≠ c := hne c2 rfl
      unfold observed_ref.remove_owner
      dsimp only
      by_cases h2 : (((w.blockAt c2).getD ref_counter_t.init).dec_strong_ref).has_no_reference
        = true
      · rw [if_pos h2, OWorld.blockAt_deleteBlock_ne _ _ _ hcc]
        by_cases h1 : (((w.blockAt c2).getD
            ref_counter_t.init).dec_strong_ref).has_no_strong_ref = true
        · rw [if_pos h1, OWorld.blockAt_deletePointee]
          exact OWorld.blockAt_writeBlock_ne _ _ _ _ hcc
        · rw [if_neg h1]
          exact OWorld.blockAt_writeBlock_ne _ _ _ _ hcc
      · rw [if_neg h2]
        by_cases h1 : (((w.blockAt c2).getD
            ref_counter_t.init).dec_strong_ref).has_no_strong_ref = true
        · rw [if_pos h1, OWorld.blockAt_deletePointee]
          exact OWorld.blockAt_writeBlock_ne _ _ _ _ hcc
        · rw [if_neg h1]
          exact OWorld.blockAt_writeBlock_ne _ _ _ _ hcc

/-- C8 counterexample: over the reachable two-handle family sharing one
counter at value 2, move-assigning h1 into its own copy h2 first releases
the ownership held by h2, so afterwards h2 holds the original pointer but the count
reads 1, not the 2 it read before the move. -/
theorem C8_counterexample :
    shared_ref.get_shared_ref_count ((SCfg.init.doCtorNew.doCopyCtor 0).hAt 1)
      (SCfg.init.doCtorNew.doCopyCtor 0).world = 2
    ∧ (((SCfg.init.doCtorNew.doCopyCtor 0).doMoveAssign 1 0).hAt 1).ptr = some 0
    ∧ shared_ref.get_shared_ref_count
        (((SCfg.init.doCtorNew.doCopyCtor 0).doMoveAssign 1 0).hAt 1)
        ((SCfg.init.doCtorNew.doCopyCtor 0).doMoveAssign 1 0).world = 1
    ∧ (1 : Nat) ≠ 2 := by
  exact ⟨rfl, rfl, rfl, by decide⟩

/-- C8 amended: after a move-construction, and after a move-assignment
whose target does not already alias the counter cell of the source, the source
is empty, the target holds the original pointer with the very same counter
pointer, and the reference count is unchanged; a move-assignment into a
handle of the same family first releases the target, decrementing the
count by one. -/
theorem C8_move_semantics (h t : SRef) (oh ot : ORef) (w : SWorld) (ow : OWorld)
    (hst : t.cnt = none ∨ t.cnt ≠ h.cnt)
    (hot1 : ot.ptr = none ↔ ot.cnt = none)
    (hot2 : ot.cnt = none ∨ ot.cnt ≠ oh.cnt) :
    (shared_ref.moveCtor h).1 = (⟨h.ptr, h.cnt⟩ : SRef)
    ∧ (shared_ref.moveCtor h).2 = (⟨none, none⟩ : SRef)
    ∧ shared_ref.toBool (shared_ref.moveCtor h).2 = false
    ∧ shared_ref.get_shared_ref_count (shared_ref.moveCtor h).1 w
        = shared_ref.get_shared_ref_count h w
    ∧ (shared_ref.moveAssign t h w).1 = (⟨h.ptr, h.cnt⟩ : SRef)
    ∧ (shared_ref.moveAssign t h w).2.1 = (⟨none, none⟩ : SRef)
    ∧ shared_ref.get_shared_ref_count (shared_ref.moveAssign t h w).1
        (shared_ref.moveAssign t h w).2.2 = shared_ref.get_shared_ref_count h w
    ∧ (observed_ref.moveCtor oh).1 = (⟨oh.ptr, oh.cnt⟩ : ORef)
    ∧ (observed_ref.moveCtor oh).2 = (⟨none, none⟩ : ORef)
    ∧ observed_ref.strongCountOf (observed_ref.moveCtor oh).1 ow
        = observed_ref.strongCountOf oh ow
    ∧ (observed_ref.moveAssign ot oh ow).1 = (⟨oh.ptr, oh.cnt⟩ : ORef)
    ∧ (observed_ref.moveAssign ot oh ow).2.1 = (⟨none, none⟩ : ORef)
    ∧ observed_ref.strongCountOf (observed_ref.moveAssign ot oh ow).1
        (observed_ref.moveAssign ot oh ow).2.2
        = observed_ref.strongCountOf oh ow := by
  have hsne : ∀ c2, t.cnt = some c2 → ∀ c, h.cnt = some c → c2 ≠ c := by
    intro c2 htc c hhc heq
    subst heq
    rcases hst with hx | hx
    · rw [htc] at hx; cases hx
    · rw [htc, hhc] at hx; exact hx rfl
  have hone : ∀ c2, ot.cnt = some c2 → ∀ c, oh.cnt = some c → c2 ≠ c := by
    intro c2 htc c hhc heq
    subst heq
    rcases hot2 with hx | hx
    · rw [htc] at hx; cases hx
    · rw [htc, hhc] at hx; exact hx rfl
  refine ⟨rfl, rfl, rfl, rfl, rfl, rfl, ?_, rfl, rfl, rfl, rfl, ?_, ?_⟩
  · show shared_ref.get_shared_ref_count (⟨h.ptr, h.cnt⟩ : SRef)
      (shared_ref.remove_owner t w).2 = shared_ref.get_shared_ref_count h w
    unfold shared_ref.get_shared_ref_count
    cases hhc : h.cnt with
    | none => rfl
    | some c =>
      dsimp only
      rw [shared_ref.remove_owner_cellAt_other t w c
        (fun c2 htc => hsne c2 htc c hhc)]
  · show (observed_ref.remove_owner ot ow).1 = (⟨none, none⟩ : ORef)
    obtain ⟨tp, tc⟩ := ot
    cases tp with
    | none =>
      have : tc = none := by simpa using hot1.mp rfl
      subst this
      rfl
    | some p =>
      cases tc with
      | none =>
        exact absurd (hot1.mpr rfl) (by simp)
      | some c2 =>
        unfold observed_ref.remove_owner
        rfl
  · show observed_ref.strongCountOf (⟨oh.ptr, oh.cnt⟩ : ORef)
      (observed_ref.remove_owner ot ow).2 = observed_ref.strongCountOf oh ow
    unfold observed_ref.strongCountOf
    cases hhc : oh.cnt with
    | none => rfl
    | some c =>
      dsimp only
      rw [observed_ref.remove_owner_blockAt_other ot ow c
        (fun c2 htc => hone c2 htc c hhc)]

/-- Witness: move semantics exercised over a one-owner family with an
empty target. -/
theorem C8_move_semantics_witness :
    (shared_ref.moveAssign (⟨none, none⟩ : SRef) (⟨some 0, some 0⟩ : SRef)
        (⟨[true], [], [some 1], []⟩ : SWorld)).1 = (⟨some 0, some 0⟩ : SRef)
    ∧ shared_ref.get_shared_ref_count
        (shared_ref.moveAssign (⟨none, none⟩ : SRef) (⟨some 0, some 0⟩ : SRef)
          (⟨[true], [], [some 1], []⟩ : SWorld)).1
        (shared_ref.moveAssign (⟨none, none⟩ : SRef) (⟨some 0, some 0⟩ : SRef)
          (⟨[true], [], [some 1], []⟩ : SWorld)).2.2 = 1
    ∧ (observed_ref.moveAssign (⟨none, none⟩ : ORef) (⟨some 0, some 0⟩ : ORef)
        (⟨[true], [], [some ⟨1, 0⟩], []⟩ : OWorld)).2.1 = (⟨none, none⟩ : ORef) := by
  have h := C8_move_semantics (⟨some 0, some 0⟩ : SRef) (⟨none, none⟩ : SRef)
    (⟨some 0, some 0⟩ : ORef) (⟨none, none⟩ : ORef)
    (⟨[true], [], [some 1], []⟩ : SWorld) (⟨[true], [], [some ⟨1, 0⟩], []⟩ : OWorld)
    (Or.inl rfl) (by simp) (Or.inl rfl)
  refine ⟨h.2.2.2.2.1, ?_, h.2.2.2.2.2.2.2.2.2.2.2.1⟩
  rw [h.2.2.2.2.2.2.1]
  rfl

/-- C9: release and re-wrap round trip for unique_ref.  Over a world in
which the pointee at address a is live and has never been freed, release()
returns the raw pointer leaving the container empty, wrapping the returned
pointer in a fresh unique_ref reproduces an equivalent container, and
destroying the now-empty original and the new container in either order
frees the pointee exactly once. -/
theorem C9_release_roundtrip (a : Nat) (w : SWorld)
    (hlive : w.pointees.getD a false = true)
    (hfree : w.ptrFreeLog.count a = 0) :
    (unique_ref.release (⟨some a⟩ : unique_ref)).2 = some a
    ∧ (unique_ref.release (⟨some a⟩ : unique_ref)).1 = (⟨none⟩ : unique_ref)
    ∧ unique_ref.toBool (unique_ref.release (⟨some a⟩ : unique_ref)).1 = false
    ∧ unique_ref.ctorFromPtr (unique_ref.release (⟨some a⟩ : unique_ref)).2
        = (⟨some a⟩ : unique_ref)
    ∧ unique_ref.dtor (⟨none⟩ : unique_ref) w = w
    ∧ (unique_ref.dtor (unique_ref.ctorFromPtr (some a))
        (unique_ref.dtor (⟨none⟩ : unique_ref) w)).ptrFreeLog.count a = 1
    ∧ (unique_ref.dtor (⟨none⟩ : unique_ref)
        (unique_ref.dtor (unique_ref.ctorFromPtr (some a)) w)).ptrFreeLog.count a = 1
    ∧ (unique_ref.dtor (unique_ref.ctorFromPtr (some a)) w).pointees.getD a false
        = false := by
  have halt : a < w.pointees.length := by
    by_contra hge
    rw [List.getD_eq_getElem?_getD, List.getElem?_eq_none (by omega)] at hlive
    cases hlive
  have hcount : (unique_ref.dtor (unique_ref.ctorFromPtr (some a)) w).ptrFreeLog.count a
      = 1 := by
    unfold unique_ref.dtor unique_ref.ctorFromPtr SWorld.deletePointee
    simp [List.count_cons, hfree]
  refine ⟨rfl, rfl, rfl, rfl, rfl, hcount, hcount, ?_⟩
  unfold unique_ref.dtor unique_ref.ctorFromPtr SWorld.deletePointee
  simp only
  exact getD_set_self _ _ _ _ halt

/-- Witness: the round trip over a one-pointee world. -/
theorem C9_release_roundtrip_witness :
    (unique_ref.release (⟨some 0⟩ : unique_ref)).2 = some 0
    ∧ (unique_ref.dtor (unique_ref.ctorFromPtr (some 0))
        (unique_ref.dtor (⟨none⟩ : unique_ref)
          (⟨[true], [], [], []⟩ : SWorld))).ptrFreeLog.count 0 = 1 := by
  have h := C9_release_roundtrip 0 (⟨[true], [], [], []⟩ : SWorld) (by decide) (by decide)
  exact ⟨h.1, h.2.2.2.2.2.1⟩

/-- C10: in every reachable shared_ref or observed_ref configuration the
data pointer is null exactly when the counter or block pointer is null;
the boolean conversion is false exactly on a null data pointer; and
copying or dropping an empty handle neither touches nor allocates a
counter: it returns an empty handle and leaves the heap unchanged. -/
theorem C10_null_agreement :
    (∀ cfg : SCfg, SReachable cfg → ∀ h ∈ cfg.handles, h.ptr = none ↔ h.cnt = none)
    ∧ (∀ cfg : OCfg, OReachable cfg → ∀ h ∈ cfg.handles, h.ptr = none ↔ h.cnt = none)
    ∧ (∀ h : SRef, shared_ref.toBool h = false ↔ h.ptr = none)
    ∧ (∀ h : ORef, observed_ref.toBool h = false ↔ h.ptr = none)
    ∧ (∀ w : SWorld, shared_ref.copyCtor (⟨none, none⟩ : SRef) w
        = ((⟨none, none⟩ : SRef), w))
    ∧ (∀ w : SWorld, shared_ref.remove_owner (⟨none, none⟩ : SRef) w
        = ((⟨none, none⟩ : SRef), w))
    ∧ (∀ w : SWorld, shared_ref.dtor (⟨none, none⟩ : SRef) w = w)
    ∧ (∀ w : OWorld, observed_ref.copyCtor (⟨none, none⟩ : ORef) w
        = ((⟨none, none⟩ : ORef), w))
    ∧ (∀ w : OWorld, observed_ref.remove_owner (⟨none, none⟩ : ORef) w
        = ((⟨none, none⟩ : ORef), w))
    ∧ (∀ w : OWorld, observed_ref.dtor (⟨none, none⟩ : ORef) w = w) := by
  refine ⟨?_, ?_, ?_, ?_, fun w => rfl, fun w => rfl, fun w => rfl, fun w => rfl,
    fun w => rfl, fun w => rfl⟩
  · intro cfg hr h hm
    exact (sharedInv_reachable hr).iffNull h hm
  · intro cfg hr h hm
    exact observedIff_reachable hr h hm
  · intro h
    unfold shared_ref.toBool
    cases hp : h.ptr <;> simp
  · intro h
    unfold observed_ref.toBool
    cases hp : h.ptr <;> simp

/-- Witness: null agreement read off the concrete reachable two-handle
shared configuration and a one-step observed configuration. -/
theorem C10_null_agreement_witness :
    (((SCfg.init.doCtorNew.doCopyCtor 0).hAt 1).ptr = none
      ↔ ((SCfg.init.doCtorNew.doCopyCtor 0).hAt 1).cnt = none)
    ∧ ((OCfg.init.doCtorNew.hAt 0).ptr = none
      ↔ (OCfg.init.doCtorNew.hAt 0).cnt = none) := by
  have h0 : SReachable SCfg.init := SReachable.init
  have h1 : SReachable SCfg.init.doCtorNew := SReachable.step h0 (SStep.ctorNew _)
  have h2 : SReachable (SCfg.init.doCtorNew.doCopyCtor 0) :=
    SReachable.step h1 (SStep.copyCtor _ 0 (by decide))
  have g1 : OReachable OCfg.init.doCtorNew :=
    OReachable.step OReachable.init (OStep.ctorNew _)
  constructor
  · exact C10_null_agreement.1 _ h2 _ (by decide)
  · exact C10_null_agreement.2.1 _ g1 _ (by decide)

end xen
